import Mathlib

/-!
Netpbm: bitmap (PBM) and greymap (PGM) buffers.

A shallow embedding of `pbm.go` and `pgm.go`.

* A Go run-time panic (index out of range, negative `make` length) is the
  `Except.error` branch of `Run`; a Go `error` value is an `Option String`
  (`none` is `nil`); a `*PBM` / `*PGM` result is an `Option` (`none` is `nil`).
  Memory is not bounded: `make` with a length that is not negative returns.
* `int` is `Int`; `strconv.Atoi` reads digits into a `uint64` and stops at
  the first overflow, as Go does. `uint8` is `Nat`, reduced `% 256` where the
  Go code converts from `int` or subtracts; a conversion from `uint8` or
  `byte` to `uint8` is the identity.
* A file is its text (valid UTF-8). `bufio.Scanner` is the sequence of results
  of its `Scan` calls with the default split function `ScanLines` and the
  default buffer of 65536 bytes: a line of 65536 bytes or more makes `Scan`
  fail. `os.Open` / `os.Create` are taken to have succeeded.
-/

namespace Netpbm

/-! ## Go run-time: panics, slices, loops -/

/-- A computation that either returns or stops with a run-time panic. -/
abbrev Run (α : Type) := Except String α

/-- The slice read `xs[i]`. -/
def index {α : Type} (xs : List α) (i : Int) : Run α :=
  if i < 0 then .error "index out of range"
  else
    match xs.get? i.toNat with
    | some v => .ok v
    | none => .error "index out of range"

/-- The slice write `xs[i] = v`. -/
def setIndex {α : Type} (xs : List α) (i : Int) (v : α) : Run (List α) :=
  if i < 0 then .error "index out of range"
  else if i.toNat < xs.length then .ok (xs.set i.toNat v)
  else .error "index out of range"

/-- The nested write `data[i][j] = v`. -/
def setIndex2 {α : Type} (data : List (List α)) (i j : Int) (v : α) : Run (List (List α)) := do
  let row ← index data i
  let row' ← setIndex row j v
  setIndex data i row'

/-- The allocation `make([]T, n)`, filled with the zero value of `T`. -/
def make {α : Type} (zero : α) (n : Int) : Run (List α) :=
  if n < 0 then .error "makeslice: len out of range"
  else .ok (List.replicate n.toNat zero)

/-- The loop `for ; i < i + n; i++ { s = body i s }`, run for `n` more rounds. -/
def forRange {σ : Type} (body : Int → σ → Run σ) : Nat → Int → σ → Run σ
  | 0, _, s => .ok s
  | n + 1, i, s =>
    match body i s with
    | .error e => .error e
    | .ok s' => forRange body n (i + 1) s'

/-- The loop `for i := 0; i < n; i++ { s = body i s }`. -/
def forUpTo {σ : Type} (n : Int) (body : Int → σ → Run σ) (s : σ) : Run σ :=
  forRange body n.toNat 0 s

/-! ## Go library: `unicode`, `strings`, `strconv`, `fmt`, `bufio` -/

/-- The predicate `unicode.IsSpace`. -/
def isSpace (c : Char) : Bool :=
  let n := c.toNat
  (9 ≤ n && n ≤ 13) || n == 32 || n == 0x85 || n == 0xA0 || n == 0x1680 ||
  (0x2000 ≤ n && n ≤ 0x200A) || n == 0x2028 || n == 0x2029 || n == 0x202F ||
  n == 0x205F || n == 0x3000

/-- Worker of `Fields`: `cur` is the field being read, last character first. -/
def fieldsAux : List Char → List Char → List String
  | [], cur => if cur.isEmpty then [] else [String.mk cur.reverse]
  | c :: cs, cur =>
    if isSpace c then
      if cur.isEmpty then fieldsAux cs [] else String.mk cur.reverse :: fieldsAux cs []
    else fieldsAux cs (c :: cur)

/-- The function `strings.Fields`: the maximal runs of non-space characters. -/
def Fields (s : String) : List String := fieldsAux s.data []

/-- The function `strings.TrimSpace`. -/
def TrimSpace (s : String) : String :=
  String.mk ((s.data.dropWhile isSpace).reverse.dropWhile isSpace).reverse

/-- Worker of `Split`: `cur` is the piece being read, last character first. -/
def splitAux (sep : Char) : List Char → List Char → List String
  | [], cur => [String.mk cur.reverse]
  | c :: cs, cur =>
    if c = sep then String.mk cur.reverse :: splitAux sep cs [] else splitAux sep cs (c :: cur)

/-- The function `strings.Split` for a separator of one character (the only
call passes `" "`). -/
def Split (s : String) (sep : Char) : List String := splitAux sep s.data []

/-- The function `strings.HasPrefix` for a one-character needle (the only call
passes `"#"`). -/
def HasPrefix (s : String) (c : Char) : Bool :=
  match s.data with
  | [] => false
  | d :: _ => d == c

/-- Value of a decimal digit. -/
def digitVal (c : Char) : Option Nat :=
  if 48 ≤ c.toNat ∧ c.toNat ≤ 57 then some (c.toNat - 48) else none

/-- Outcome of `strconv.ParseUint`: a value, a syntax error, or a range error. -/
inductive Parsed where
  | value : Nat → Parsed
  | invalid : Parsed
  | overflow : Parsed
deriving DecidableEq

/-- The digit loop of `strconv.ParseUint(s, 10, 64)`, left to right with the
value `n` read so far: a byte that is not a digit is a syntax error, and the
first digit at which the value leaves the range of `uint64` is a range error,
whatever follows it. -/
def parseUint : List Char → Nat → Parsed
  | [], n => .value n
  | c :: cs, n =>
    match digitVal c with
    | none => .invalid
    | some d =>
      if n ≥ 1844674407370955162 then .overflow
      else if n * 10 + d > 2 ^ 64 - 1 then .overflow
      else parseUint cs (n * 10 + d)

/-- The magnitude read by `Atoi`, placed in the 64-bit range. -/
def clampInt64 (neg : Bool) (n : Nat) : Int × Option String :=
  if neg then
    if n > 2 ^ 63 then (-(2 ^ 63 : Int), some "value out of range") else (-(n : Int), none)
  else
    if n ≥ 2 ^ 63 then ((2 ^ 63 : Int) - 1, some "value out of range") else ((n : Int), none)

/-- Digits of `Atoi` after the optional sign, as `strconv.ParseInt` treats the
result of `ParseUint`: a syntax error gives 0, a range error gives the
largest `uint64`, which is then placed in the 64-bit range. -/
def atoiDigits (neg : Bool) (ds : List Char) : Int × Option String :=
  if ds.isEmpty then (0, some "invalid syntax")
  else
    match parseUint ds 0 with
    | .invalid => (0, some "invalid syntax")
    | .overflow => clampInt64 neg (2 ^ 64 - 1)
    | .value n => clampInt64 neg n

/-- The function `strconv.Atoi`: the value and the error. A syntax error gives
value 0, a range error gives the nearest 64-bit value. (The fast path of
`Atoi` for strings under 19 bytes returns what `ParseInt` returns.) -/
def Atoi (s : String) : Int × Option String :=
  match s.data with
  | [] => atoiDigits false []
  | c :: ds =>
    if c = '-' then atoiDigits true ds
    else if c = '+' then atoiDigits false ds
    else atoiDigits false (c :: ds)

/-- The character of a decimal digit. -/
def digitChar (d : Nat) : Char := Char.ofNat (48 + d)

/-- Decimal digits of `n`, most significant first; `fuel` bounds the number of digits. -/
def natDigits : Nat → Nat → List Char
  | 0, _ => []
  | fuel + 1, n => if n < 10 then [digitChar n] else natDigits fuel (n / 10) ++ [digitChar (n % 10)]

/-- The verb `%d` on a non-negative value. -/
def fmtNat (n : Nat) : String := String.mk (natDigits (n + 1) n)

/-- The verb `%d` on an `int`. -/
def fmtInt (i : Int) : String :=
  if i < 0 then "-" ++ fmtNat i.natAbs else fmtNat i.natAbs

/-- The helper `dropCR` of `bufio`: one trailing carriage return is removed. -/
def dropCR (l : List Char) : List Char :=
  if l.getLast? = some '\r' then l.dropLast else l

/-- Number of bytes of a character in UTF-8. -/
def utf8Len (c : Char) : Nat :=
  if c.toNat < 0x80 then 1 else if c.toNat < 0x800 then 2 else if c.toNat < 0x10000 then 3 else 4

/-- The constant `bufio.MaxScanTokenSize`: the largest size the buffer of a
`Scanner` grows to. -/
def maxScanTokenSize : Nat := 65536

/-- The first `k` bytes of character `c`, where the buffer of the scanner
ends: the character itself when all its bytes fit, and otherwise one
replacement character for each stray byte. -/
def cutChar (c : Char) (k : Nat) : List Char :=
  if utf8Len c = k then [c] else List.replicate k (Char.ofNat 0xFFFD)

/-- Worker of `scanLines`: `cur` is the line being read, last character first,
and `size` its length in bytes. A line is delivered when its newline, or the
end of the text, is met with the line inside the buffer. When the buffer is
full without a newline, `Scan` fails with `ErrTooLong` and an empty token;
the `Scan` after that delivers the buffer's content, and the text beyond it
is never read. -/
def scanLinesAux : List Char → List Char → Nat → List (Option String)
  | [], cur, _ => if cur.isEmpty then [] else [some (String.mk (dropCR cur.reverse))]
  | c :: cs, cur, size =>
    if c = '\n' then some (String.mk (dropCR cur.reverse)) :: scanLinesAux cs [] 0
    else if size + utf8Len c < maxScanTokenSize then
      scanLinesAux cs (c :: cur) (size + utf8Len c)
    else
      [none, some (String.mk (dropCR (cur.reverse ++ cutChar c (maxScanTokenSize - size))))]

/-- What the successive `Scan` calls of a `bufio.Scanner` with the default
split function `ScanLines` do on a text: `some line` is a call that returns
true with that token, `none` a call that returns false with an empty token.
After the last entry every call returns false. -/
def scanLines (text : String) : List (Option String) := scanLinesAux text.data [] 0

/-- A `bufio.Scanner`: the results of the `Scan` calls still to come and the
current token. -/
structure Scanner where
  pending : List (Option String)
  tok : String
deriving DecidableEq

/-- The call `bufio.NewScanner(file)`. -/
def NewScanner (text : String) : Scanner := { pending := scanLines text, tok := "" }

/-- The call `scanner.Scan()`: when it returns false the token is empty. -/
def Scanner.Scan (sc : Scanner) : Bool × Scanner :=
  match sc.pending with
  | [] => (false, { pending := [], tok := "" })
  | none :: ls => (false, { pending := ls, tok := "" })
  | some l :: ls => (true, { pending := ls, tok := l })

/-- The call `scanner.Text()`. -/
def Scanner.Text (sc : Scanner) : String := sc.tok

/-! ## pbm.go -/

/-- The struct `PBM`. -/
structure PBM where
  data : List (List Bool)
  width : Int
  height : Int
  magicNumber : String
deriving DecidableEq

/-- The dimension loop of `ReadPBM`:
`for scanner.Scan() { if scanner.Text()[0] == '#' { continue }; break }`,
by recursion on the `Scan` results still to come; the loop ends when `Scan`
returns false. -/
def skipComments : List (Option String) → Run Scanner
  | [] => .ok { pending := [], tok := "" }
  | none :: ls => .ok { pending := ls, tok := "" }
  | some l :: ls =>
    match l.data with
    | [] => .error "index out of range"
    | c :: _ => if c = '#' then skipComments ls else .ok { pending := ls, tok := l }

/-- Allocation loop of `ReadPBM`: the body `data[i] = make([]bool, width)`. -/
def allocPBMRow (width : Int) (i : Int) (data : List (List Bool)) : Run (List (List Bool)) := do
  let row ← make false width
  setIndex data i row

/-- Inner sample loop of `ReadPBM`: the body for column `j` of row `i`. -/
def readPBMCell (hori : List String) (i j : Int) (data : List (List Bool)) :
    Run (List (List Bool)) := do
  let tokn ← index hori j
  let verti := (Atoi tokn).1
  if verti = 1 then setIndex2 data i j true else pure data

/-- Outer sample loop of `ReadPBM`: the body for row `i`. -/
def readPBMRow (width : Int) (i : Int) (st : Scanner × List (List Bool)) :
    Run (Scanner × List (List Bool)) := do
  let sc := st.1.Scan.2
  let line := sc.Text
  let hori := Fields line
  let data ← forUpTo width (readPBMCell hori i) st.2
  pure (sc, data)

/-- The function `ReadPBM`, on the text of the opened file. -/
def ReadPBM (text : String) : Run (Option PBM × Option String) := do
  let scanner := (NewScanner text).Scan.2
  let line := TrimSpace scanner.Text
  if line ≠ "P1" ∧ line ≠ "P4" then pure (none, some ("error " ++ line))
  else
    let magicNumber := line
    let scanner ← skipComments scanner.pending
    let dimension := scanner.Text
    let res := Split dimension ' '
    let height := (Atoi (← index res 0)).1
    let width := (Atoi (← index res 1)).1
    if magicNumber = "P1" then
      let data ← make ([] : List Bool) height
      let data ← forUpTo height (allocPBMRow width) data
      let st ← forUpTo height (readPBMRow width) (scanner, data)
      pure (some { data := st.2, width := width, height := height, magicNumber := magicNumber }, none)
    else pure (none, none)

/-- The method `Size`. -/
def PBM.Size (pbm : PBM) : Int × Int := (pbm.width, pbm.height)

/-- The method `At`. -/
def PBM.At (pbm : PBM) (x y : Int) : Run Bool :=
  if pbm.data.length = 0 ∨ x < 0 ∨ y < 0 ∨ x ≥ pbm.width ∨ y ≥ pbm.height then pure false
  else do
    let row ← index pbm.data y
    index row x

/-- One row of the `P1` branch of `Save`. -/
def savePBMRow (row : List Bool) : String :=
  String.join (row.map fun j => if j then "1 " else "0 ") ++ "\n"

/-- The method `Save`: the text written to the created file, and the error returned. -/
def PBM.Save (pbm : PBM) : String × Option String :=
  let header := pbm.magicNumber ++ "\n" ++ fmtInt pbm.width ++ " " ++ fmtInt pbm.height ++ "\n"
  if pbm.magicNumber = "P1" then
    (header ++ String.join (pbm.data.map savePBMRow), none)
  else (header, none)

/-- The method `Set`. -/
def PBM.Set (pbm : PBM) (x y : Int) (value : Bool) : Run PBM := do
  let data ← setIndex2 pbm.data y x value
  pure { pbm with data := data }

/-- The cell update `data[r][c] = f data[r][c]`. -/
def updateCell {α : Type} (f : α → α) (r c : Int) (data : List (List α)) :
    Run (List (List α)) := do
  let row ← index data r
  let v ← index row c
  setIndex2 data r c (f v)

/-- The swap `data[r][a], data[r][b] = data[r][b], data[r][a]`. -/
def swapCells {α : Type} (r a b : Int) (data : List (List α)) : Run (List (List α)) := do
  let row ← index data r
  let vb ← index row b
  let va ← index row a
  let data ← setIndex2 data r a vb
  setIndex2 data r b va

/-- The swap `data[a], data[b] = data[b], data[a]`. -/
def swapRows {α : Type} (a b : Int) (data : List (List α)) : Run (List (List α)) := do
  let rb ← index data b
  let ra ← index data a
  let data ← setIndex data a rb
  setIndex data b ra

/-- The loops shared by `PBM.Flip` and `PGM.Flip`: in every row, column `c`
is swapped with column `width - c - 1` for `c < width / 2`. -/
def flipLoop {α : Type} (width height : Int) (data : List (List α)) : Run (List (List α)) :=
  forUpTo height (fun r d =>
    forUpTo (width.tdiv 2) (fun c d => swapCells r c (width - c - 1) d) d) data

/-- The loop shared by `PBM.Flop` and `PGM.Flop`: row `r` is swapped with row
`height - r - 1` for `r < height / 2`. -/
def flopLoop {α : Type} (height : Int) (data : List (List α)) : Run (List (List α)) :=
  forUpTo (height.tdiv 2) (fun r d => swapRows r (height - r - 1) d) data

/-- The method `Invert`. -/
def PBM.Invert (pbm : PBM) : Run PBM := do
  let data ← forUpTo pbm.height (fun x d =>
    forUpTo pbm.width (fun y d => updateCell (fun v => !v) x y d) d) pbm.data
  pure { pbm with data := data }

/-- The method `Flip`. -/
def PBM.Flip (pbm : PBM) : Run PBM := do
  let data ← flipLoop pbm.width pbm.height pbm.data
  pure { pbm with data := data }

/-- The method `Flop`. -/
def PBM.Flop (pbm : PBM) : Run PBM := do
  let data ← flopLoop pbm.height pbm.data
  pure { pbm with data := data }

/-- The method `SetMagicNumber`. -/
def PBM.SetMagicNumber (pbm : PBM) (magicNumber : String) : PBM :=
  { pbm with magicNumber := magicNumber }

/-! ## pgm.go -/

/-- The struct `PGM`; `data` and `max` hold `uint8` values. -/
structure PGM where
  data : List (List Nat)
  width : Int
  height : Int
  magicNumber : String
  max : Nat
deriving DecidableEq

/-- The conversion `uint8(v)` of an `int`. -/
def toUint8 (v : Int) : Nat := (v % 256).toNat

/-- The comment loop of `GetPGM`:
`for strings.HasPrefix(scanner.Text(), "#") { scanner.Scan() }`,
by recursion on the `Scan` results still to come; `tok` is the current token. -/
def skipHashLines : String → List (Option String) → Scanner
  | tok, [] =>
    if HasPrefix tok '#' then { pending := [], tok := "" } else { pending := [], tok := tok }
  | tok, l :: ls =>
    if HasPrefix tok '#' then skipHashLines (l.getD "") ls else { pending := l :: ls, tok := tok }

/-- What a loop body of `readP2` does: go on with a new state, or return from the function. -/
inductive Flow (ρ σ : Type) where
  | next : σ → Flow ρ σ
  | ret : ρ → Flow ρ σ
deriving DecidableEq

/-- A `for` loop with `n` more rounds whose body may return from the function. -/
def forRangeRet {ρ σ : Type} (body : Int → σ → Run (Flow ρ σ)) : Nat → Int → σ → Run (Flow ρ σ)
  | 0, _, s => .ok (.next s)
  | n + 1, i, s =>
    match body i s with
    | .error e => .error e
    | .ok (.ret r) => .ok (.ret r)
    | .ok (.next s') => forRangeRet body n (i + 1) s'

/-- Inner loop body of `readP2`, for column `x` of row `y`. -/
def readP2Cell (VALl : List String) (y x : Int) (data : List (List Nat)) :
    Run (Flow String (List (List Nat))) := do
  let tokn ← index VALl x
  match Atoi tokn with
  | (_, some err) => pure (.ret err)
  | (value, none) =>
    let data ← setIndex2 data y x (toUint8 value)
    pure (.next data)

/-- Outer loop body of `readP2`, for row `y`. -/
def readP2Row (width : Int) (y : Int) (st : Scanner × List (List Nat)) :
    Run (Flow String (Scanner × List (List Nat))) := do
  let data ← setIndex st.2 y (← make 0 width)
  let VALl := Fields st.1.Text
  match ← forRangeRet (readP2Cell VALl y) width.toNat 0 data with
  | .ret err => pure (.ret err)
  | .next data => pure (.next (st.1.Scan.2, data))

/-- The function `readP2`: the data (`[]` is `nil`) and the error. -/
def readP2 (scanner : Scanner) (width height : Int) : Run (List (List Nat) × Option String) := do
  let data ← make ([] : List Nat) height
  match ← forRangeRet (readP2Row width) height.toNat 0 (scanner, data) with
  | .ret err => pure ([], some err)
  | .next st => pure (st.2, none)

/-- The call `file.Read(yes)` for a buffer of `width` bytes: the bytes read
(`none` on end of file) and the bytes left. -/
def fileRead (width : Nat) (unread : List Nat) : Option (List Nat) × List Nat :=
  if width = 0 then (some [], unread)
  else if unread.isEmpty then (none, unread)
  else (some (unread.take width), unread.drop width)

/-- Loop body of `readP5`, for row `y`; the state is the unread bytes and the data. -/
def readP5Row (width : Int) (y : Int) (st : List Nat × List (List Nat)) :
    Run (Flow String (List Nat × List (List Nat))) := do
  let data ← setIndex st.2 y (← make 0 width)
  let yes ← make 0 width
  match fileRead width.toNat st.1 with
  | (none, _) => pure (.ret "EOF")
  | (some got, rest) =>
    let yes := got ++ yes.drop got.length
    let data ← forUpTo width (fun x d => do setIndex2 d y x (← index yes x)) data
    pure (.next (rest, data))

/-- The function `readP5`: the data (`[]` is `nil`) and the error. `unread` is
what direct reads of the file see: the bytes beyond the scanner's read-ahead. -/
def readP5 (unread : List Nat) (width height : Int) : Run (List (List Nat) × Option String) := do
  let data ← make ([] : List Nat) height
  match ← forRangeRet (readP5Row width) height.toNat 0 (unread, data) with
  | .ret err => pure ([], some err)
  | .next st => pure (st.2, none)

/-- The function `GetPGM`, on the text of the opened file; `unread` is passed to `readP5`. -/
def GetPGM (text : String) (unread : List Nat) : Run (Option PGM × Option String) := do
  let scanner := (NewScanner text).Scan.2
  let magicNumber := scanner.Text
  let scanner := skipHashLines scanner.Text scanner.pending
  let scanner := scanner.Scan.2
  let size := Fields scanner.Text
  let width := (Atoi (← index size 0)).1
  let height := (Atoi (← index size 1)).1
  let scanner := scanner.Scan.2
  let max := (Atoi scanner.Text).1
  if magicNumber = "P2" then
    let data := (← readP2 scanner width height).1
    pure (some { data := data, width := width, height := height,
                 magicNumber := magicNumber, max := toUint8 max }, none)
  else if magicNumber = "P5" then
    let data := (← readP5 unread width height).1
    pure (some { data := data, width := width, height := height,
                 magicNumber := magicNumber, max := toUint8 max }, none)
  else pure (none, some ("unsupported PGM format: " ++ magicNumber))

/-- The method `Size`. -/
def PGM.Size (pgm : PGM) : Int × Int := (pgm.width, pgm.height)

/-- The method `At`. -/
def PGM.At (pgm : PGM) (x y : Int) : Run Nat := do
  let row ← index pgm.data y
  index row x

/-- The method `Set`. -/
def PGM.Set (pgm : PGM) (x y : Int) (value : Nat) : Run PGM := do
  let data ← setIndex2 pgm.data y x value
  pure { pgm with data := data }

/-- The function `createP2`. -/
def createP2 (data : List (List Nat)) : String :=
  String.join (data.map fun row => String.join (row.map fun v => fmtNat v ++ " ") ++ "\n")

/-- The function `createP5`; a byte is carried as the character of the same code. -/
def createP5 (data : List (List Nat)) : String :=
  String.join (data.map fun row => String.mk (row.map fun v => Char.ofNat v))

/-- The method `Save`: the text in the created file when `Save` returns, and
the error returned. The header goes through a `bufio.Writer` of 4096 bytes
that is flushed last, `createP5` writes to the file directly, and the error
branch returns without flushing. -/
def PGM.Save (pgm : PGM) : String × Option String :=
  let header := pgm.magicNumber ++ "\n" ++ fmtInt pgm.width ++ " " ++ fmtInt pgm.height ++ "\n" ++
    fmtNat pgm.max ++ "\n"
  if pgm.magicNumber = "P2" then (header ++ createP2 pgm.data, none)
  else if pgm.magicNumber = "P5" then (createP5 pgm.data ++ header, none)
  else (if header.utf8ByteSize > 4096 then header else "", some ("ERROR: " ++ pgm.magicNumber))

/-- The 8-bit subtraction `a - b` on `uint8`. -/
def subUint8 (a b : Nat) : Nat := (a % 256 + 256 - b % 256) % 256

/-- The method `Invert`. -/
def PGM.Invert (pgm : PGM) : Run PGM := do
  let data ← forUpTo pgm.height (fun y d =>
    forUpTo pgm.width (fun x d => updateCell (fun v => subUint8 pgm.max v) y x d) d) pgm.data
  pure { pgm with data := data }

/-- The method `Flip`. -/
def PGM.Flip (pgm : PGM) : Run PGM := do
  let data ← flipLoop pgm.width pgm.height pgm.data
  pure { pgm with data := data }

/-- The method `Flop`. -/
def PGM.Flop (pgm : PGM) : Run PGM := do
  let data ← flopLoop pgm.height pgm.data
  pure { pgm with data := data }

/-- The method `SetMagicNumber`. -/
def PGM.SetMagicNumber (pgm : PGM) (magicNumber : String) : PGM :=
  { pgm with magicNumber := magicNumber }

/-- The method `PGMMAX`. -/
def PGM.PGMMAX (pgm : PGM) (maxVal : Nat) : PGM := { pgm with max := maxVal }

/-- Inner loop body of `ROTA`: `newData[x][y] = pgm.data[pgm.height-y-1][x]`. -/
def rotaCell (pgm : PGM) (x y : Int) (newData : List (List Nat)) : Run (List (List Nat)) := do
  let row ← index pgm.data (pgm.height - y - 1)
  let v ← index row x
  setIndex2 newData x y v

/-- Outer loop body of `ROTA`, for column `x` of the source. -/
def rotaRow (pgm : PGM) (x : Int) (newData : List (List Nat)) : Run (List (List Nat)) := do
  let newData ← setIndex newData x (← make 0 pgm.height)
  forUpTo pgm.height (rotaCell pgm x) newData

/-- The method `ROTA`. -/
def PGM.ROTA (pgm : PGM) : Run PGM := do
  let newData ← make ([] : List Nat) pgm.width
  let newData ← forUpTo pgm.width (rotaRow pgm) newData
  pure { pgm with data := newData, width := pgm.height, height := pgm.width }

/-- Inner loop body of `PBMConv`: `data[y][x] = pgm.data[y][x] > uint8(pgm.max/2)`. -/
def pbmConvCell (pgm : PGM) (y x : Int) (data : List (List Bool)) : Run (List (List Bool)) := do
  let row ← index pgm.data y
  let v ← index row x
  setIndex2 data y x (decide (v > pgm.max / 2))

/-- Outer loop body of `PBMConv`, for row `y`. -/
def pbmConvRow (pgm : PGM) (y : Int) (data : List (List Bool)) : Run (List (List Bool)) := do
  let data ← setIndex data y (← make false pgm.width)
  forUpTo pgm.width (pbmConvCell pgm y) data

/-- The method `PBMConv`: the bitmap returned, and the receiver after the call. -/
def PGM.PBMConv (pgm : PGM) : Run (PBM × PGM) := do
  let data ← make ([] : List Bool) pgm.height
  let data ← forUpTo pgm.height (pbmConvRow pgm) data
  pure ({ data := data, width := pgm.width, height := pgm.height, magicNumber := "P4" }, pgm)

/-! ## Well-formed buffers and closed forms -/

/-- The bitmap's width is not negative and its data has `height` rows of `width` samples. -/
def PBM.WellFormed (p : PBM) : Prop :=
  0 ≤ p.width ∧ (p.data.length : Int) = p.height ∧ ∀ row ∈ p.data, (row.length : Int) = p.width

/-- The greymap's width is not negative and its data has `height` rows of `width` samples. -/
def PGM.WellFormed (p : PGM) : Prop :=
  0 ≤ p.width ∧ (p.data.length : Int) = p.height ∧ ∀ row ∈ p.data, (row.length : Int) = p.width

instance PBM.decidableWellFormed (p : PBM) : Decidable p.WellFormed :=
  inferInstanceAs (Decidable (0 ≤ p.width ∧ (p.data.length : Int) = p.height ∧
    ∀ row ∈ p.data, (row.length : Int) = p.width))

instance PGM.decidableWellFormed (p : PGM) : Decidable p.WellFormed :=
  inferInstanceAs (Decidable (0 ≤ p.width ∧ (p.data.length : Int) = p.height ∧
    ∀ row ∈ p.data, (row.length : Int) = p.width))

/-- The swap `l[a], l[b] = l[b], l[a]` on a slice of any element type: what
`swapRows` does to the rows and `swapCells` does inside one row. -/
def swapAt {α : Type} (a b : Int) (l : List α) : Run (List α) := do
  let vb ← index l b
  let va ← index l a
  let l ← setIndex l a vb
  setIndex l b va

/-- The sample in row `r`, column `c` of a grid, 0 outside the grid. -/
def cell (data : List (List Nat)) (r c : Nat) : Nat := (data.getD r []).getD c 0

/-- Closed form of `ROTA`: row `x` of the new grid is column `x` of the old one, bottom up. -/
def PGM.rotated (p : PGM) : PGM :=
  { p with
    data := (List.replicate p.width.toNat ([] : List Nat)).mapIdx fun x _ =>
      (List.replicate p.height.toNat 0).mapIdx fun y _ => cell p.data (p.height.toNat - 1 - y) x
    width := p.height
    height := p.width }

/-- Closed form of the grid `PBMConv` builds: a sample is set when it exceeds `max / 2`. -/
def PGM.thresholded (p : PGM) : List (List Bool) :=
  (List.replicate p.height.toNat ([] : List Bool)).mapIdx fun y _ =>
    (List.replicate p.width.toNat false).mapIdx fun x _ => decide (cell p.data y x > p.max / 2)

/-- The row `ReadPBM` builds from one sample line: cell `j` is set when token
`j` of the line reads as the integer 1. -/
def decodeRow (width : Nat) (line : String) : List Bool :=
  (List.replicate width false).mapIdx fun j v =>
    if (Atoi ((Fields line).getD j "")).1 = 1 then true else v

/-- Equality of run results is decidable, so that runs on concrete inputs can be evaluated. -/
instance instDecidableEqRun {α : Type} [DecidableEq α] : DecidableEq (Run α)
  | .ok a, .ok b => if h : a = b then isTrue (by rw [h]) else isFalse (fun e => h (Except.ok.inj e))
  | .error a, .error b =>
    if h : a = b then isTrue (by rw [h]) else isFalse (fun e => h (Except.error.inj e))
  | .ok _, .error _ => isFalse (fun e => Except.noConfusion e)
  | .error _, .ok _ => isFalse (fun e => Except.noConfusion e)


/-! ## Slices and loops: basic facts -/

theorem index_natCast {α : Type} (xs : List α) (k : Nat) (d : α) (hk : k < xs.length) :
    index xs (k : Int) = .ok (xs.getD k d) := by
  have h0 : ¬ ((k : Int) < 0) := by omega
  simp [index, h0, List.get?_eq_getElem?, List.getElem?_eq_getElem hk, List.getD_eq_getElem?_getD]

theorem index_mid {α : Type} (pre : List α) (v : α) (suf : List α) :
    index (pre ++ v :: suf) (pre.length : Int) = .ok v := by
  have h0 : ¬ ((pre.length : Int) < 0) := by omega
  have h1 : (pre ++ v :: suf)[pre.length]? = some v := by
    rw [List.getElem?_append_right (Nat.le_refl _)]; simp
  simp [index, h0, List.get?_eq_getElem?, h1]

theorem setIndex_mid {α : Type} (pre : List α) (v w : α) (suf : List α) :
    setIndex (pre ++ v :: suf) (pre.length : Int) w = .ok (pre ++ w :: suf) := by
  have h0 : ¬ ((pre.length : Int) < 0) := by omega
  simp [setIndex, h0]

theorem setIndex2_mid {α : Type} (P : List (List α)) (row : List α) (Q : List (List α))
    (j : Int) (v : α) :
    setIndex2 (P ++ row :: Q) (P.length : Int) j v =
      (setIndex row j v).map (fun r => P ++ r :: Q) := by
  unfold setIndex2
  rw [index_mid]
  cases h : setIndex row j v with
  | error e => simp [bind, Except.bind, Except.map, h]
  | ok r => simp [bind, Except.bind, Except.map, h, setIndex_mid]

/-- A loop over the cells of one row of a grid is the loop over that row. -/
theorem forRange_row {α : Type} (body : Int → List (List α) → Run (List (List α)))
    (b : Int → List α → Run (List α)) (P Q : List (List α))
    (hbody : ∀ j row, body j (P ++ row :: Q) = (b j row).map (fun r => P ++ r :: Q)) :
    ∀ (n : Nat) (k : Int) (row : List α),
      forRange body n k (P ++ row :: Q) = (forRange b n k row).map (fun r => P ++ r :: Q) := by
  intro n
  induction n with
  | zero => intro k row; rfl
  | succ n ih =>
    intro k row
    simp only [forRange, hbody]
    cases h : b k row with
    | error e => rfl
    | ok r => simpa [Except.map] using ih (k + 1) r

/-- A loop whose round `k` rewrites cell `k` of a slice of `n` cells from the
old cell computes `mapIdx`. -/
theorem forRange_mapIdx_aux {α : Type} (b : Int → List α → Run (List α)) (h : Nat → α → α)
    (n : Nat)
    (hb : ∀ (pre : List α) (v : α) (suf : List α), (pre ++ v :: suf).length = n →
      b (pre.length : Int) (pre ++ v :: suf) = .ok (pre ++ h pre.length v :: suf)) :
    ∀ (suf pre : List α), (pre ++ suf).length = n →
      forRange b suf.length (pre.length : Int) (pre ++ suf) =
        .ok (pre ++ suf.mapIdx (fun j v => h (pre.length + j) v)) := by
  intro suf
  induction suf with
  | nil => intro pre _; simp [forRange]
  | cons v suf ih =>
    intro pre hlen
    simp only [List.length_cons, forRange, hb pre v suf hlen]
    have e1 : pre ++ h pre.length v :: suf = (pre ++ [h pre.length v]) ++ suf := by simp
    have e2 : ((pre.length : Int) + 1) = ((pre ++ [h pre.length v]).length : Int) := by simp
    rw [e1, e2, ih (pre ++ [h pre.length v]) (by simpa using hlen)]
    simp [List.mapIdx_cons, Nat.add_assoc, Nat.add_comm 1]

theorem forRange_mapIdx {α : Type} (b : Int → List α → Run (List α)) (h : Nat → α → α)
    (n : Nat)
    (hb : ∀ (pre : List α) (v : α) (suf : List α), (pre ++ v :: suf).length = n →
      b (pre.length : Int) (pre ++ v :: suf) = .ok (pre ++ h pre.length v :: suf))
    (row : List α) (hrow : row.length = n) :
    forRange b n 0 row = .ok (row.mapIdx h) := by
  have := forRange_mapIdx_aux b h n hb row [] (by simpa using hrow)
  simpa [hrow] using this


/-! ## ROTA -/

theorem rotaCell_row (pgm : PGM) (P Q : List (List Nat)) (j : Int) (row : List Nat) :
    rotaCell pgm (P.length : Int) j (P ++ row :: Q) =
      (index pgm.data (pgm.height - j - 1) >>= fun srow =>
        index srow (P.length : Int) >>= fun v => setIndex row j v).map
        (fun r => P ++ r :: Q) := by
  unfold rotaCell
  cases h1 : index pgm.data (pgm.height - j - 1) with
  | error e => rfl
  | ok srow =>
    cases h2 : index srow (P.length : Int) with
    | error e => simp [bind, Except.bind, Except.map, h2]
    | ok v => simp [bind, Except.bind, h2, setIndex2_mid]

theorem rotaRow_eq (pgm : PGM) (hwf : pgm.WellFormed) (P : List (List Nat)) (r : List Nat)
    (Q : List (List Nat)) (hx : (P.length : Int) < pgm.width) :
    rotaRow pgm (P.length : Int) (P ++ r :: Q) =
      .ok (P ++ ((List.replicate pgm.height.toNat 0).mapIdx fun y _ =>
        cell pgm.data (pgm.height.toNat - 1 - y) P.length) :: Q) := by
  obtain ⟨hw0, hlen, hrows⟩ := hwf
  have hh0 : ¬ (pgm.height < 0) := by omega
  unfold rotaRow
  simp only [make, hh0, if_false, bind, Except.bind, setIndex_mid, forUpTo]
  rw [forRange_row _ _ P Q (rotaCell_row pgm P Q)]
  rw [forRange_mapIdx _ (fun y _ => cell pgm.data (pgm.height.toNat - 1 - y) P.length)
    pgm.height.toNat _ _ (by simp)]
  · rfl
  · intro pre v suf hl
    have hpre : pre.length < pgm.data.length := by
      simp at hl; omega
    have e1 : pgm.height - (pre.length : Int) - 1 =
        ((pgm.height.toNat - 1 - pre.length : Nat) : Int) := by omega
    have hr : pgm.height.toNat - 1 - pre.length < pgm.data.length := by omega
    rw [e1, index_natCast pgm.data _ [] hr]
    have hmem : pgm.data.getD (pgm.height.toNat - 1 - pre.length) [] ∈ pgm.data := by
      rw [List.getD_eq_getElem _ _ hr]; exact List.getElem_mem _
    have hrl := hrows _ hmem
    have hc : P.length < (pgm.data.getD (pgm.height.toNat - 1 - pre.length) []).length := by
      omega
    simp only [bind, Except.bind]
    rw [index_natCast _ _ 0 hc]
    simp only [setIndex_mid, cell]

theorem ROTA_eq (pgm : PGM) (hwf : pgm.WellFormed) : pgm.ROTA = .ok pgm.rotated := by
  have hw0 : ¬ (pgm.width < 0) := by have := hwf.1; omega
  unfold PGM.ROTA PGM.rotated
  simp only [make, hw0, if_false, bind, Except.bind, forUpTo]
  rw [forRange_mapIdx (rotaRow pgm) (fun x _ => (List.replicate pgm.height.toNat 0).mapIdx
    fun y _ => cell pgm.data (pgm.height.toNat - 1 - y) x) pgm.width.toNat _ _ (by simp)]
  · rfl
  · intro pre v suf hl
    apply rotaRow_eq pgm hwf
    simp at hl; omega


theorem rotated_length (p : PGM) : p.rotated.data.length = p.width.toNat := by
  simp [PGM.rotated]

theorem rotated_row (p : PGM) (x : Nat) (hx : x < p.width.toNat) :
    p.rotated.data.getD x [] =
      (List.replicate p.height.toNat 0).mapIdx fun y _ =>
        cell p.data (p.height.toNat - 1 - y) x := by
  have h : x < p.rotated.data.length := by rw [rotated_length]; exact hx
  rw [List.getD_eq_getElem _ _ h]
  simp [PGM.rotated]

theorem cell_rotated (p : PGM) (x y : Nat) (hx : x < p.width.toNat) (hy : y < p.height.toNat) :
    cell p.rotated.data x y = cell p.data (p.height.toNat - 1 - y) x := by
  unfold cell
  rw [rotated_row p x hx]
  rw [List.getD_eq_getElem _ _ (by simpa using hy)]
  simp [cell]

theorem rotated_wf (p : PGM) (hwf : p.WellFormed) : p.rotated.WellFormed := by
  obtain ⟨hw0, hlen, hrows⟩ := hwf
  refine ⟨?_, ?_, ?_⟩
  · show 0 ≤ p.height
    omega
  · show (p.rotated.data.length : Int) = p.width
    rw [rotated_length]; omega
  · intro row hrow
    show (row.length : Int) = p.height
    obtain ⟨x, hx, rfl⟩ := List.mem_iff_getElem.mp hrow
    have hx' : x < p.width.toNat := by rw [rotated_length] at hx; exact hx
    have := rotated_row p x hx'
    rw [List.getD_eq_getElem _ _ hx] at this
    rw [this]
    simp
    omega

theorem At_natCast (p : PGM) (x y : Nat) (hy : y < p.data.length)
    (hx : x < (p.data.getD y []).length) :
    p.At (x : Int) (y : Int) = .ok (cell p.data y x) := by
  unfold PGM.At
  rw [index_natCast p.data y [] hy]
  simp only [bind, Except.bind]
  rw [index_natCast _ x 0 hx]
  rfl

theorem row_length_of_wf (p : PGM) (hwf : p.WellFormed) (y : Nat) (hy : y < p.height.toNat) :
    (p.data.getD y []).length = p.width.toNat := by
  obtain ⟨hw0, hlen, hrows⟩ := hwf
  have hy' : y < p.data.length := by omega
  have hmem : p.data.getD y [] ∈ p.data := by
    rw [List.getD_eq_getElem _ _ hy']; exact List.getElem_mem _
  have := hrows _ hmem
  omega

theorem grid_ext (a b : List (List Nat)) (h w : Nat) (ha : a.length = h) (hb : b.length = h)
    (har : ∀ y, y < h → (a.getD y []).length = w) (hbr : ∀ y, y < h → (b.getD y []).length = w)
    (hc : ∀ y x, y < h → x < w → cell a y x = cell b y x) : a = b := by
  apply List.ext_getElem (by rw [ha, hb])
  intro y h1 h2
  have hy : y < h := by omega
  have ea := har y hy
  have eb := hbr y hy
  rw [List.getD_eq_getElem _ _ h1] at ea
  rw [List.getD_eq_getElem _ _ h2] at eb
  apply List.ext_getElem (by rw [ea, eb])
  intro x h3 h4
  have := hc y x hy (by omega)
  unfold cell at this
  rw [List.getD_eq_getElem _ _ h1, List.getD_eq_getElem _ _ h2,
    List.getD_eq_getElem _ _ h3, List.getD_eq_getElem _ _ h4] at this
  exact this

theorem rotated_width (p : PGM) : p.rotated.width = p.height := rfl

theorem rotated_height (p : PGM) : p.rotated.height = p.width := rfl

theorem cell_rotated_twice (p : PGM) (y x : Nat) (hy : y < p.height.toNat)
    (hx : x < p.width.toNat) :
    cell p.rotated.rotated.data y x =
      cell p.data (p.height.toNat - 1 - y) (p.width.toNat - 1 - x) := by
  rw [cell_rotated _ y x (by rw [rotated_width]; exact hy) (by rw [rotated_height]; exact hx)]
  rw [rotated_height]
  rw [cell_rotated _ _ _ (by omega) hy]

theorem rotated_four (p : PGM) (hwf : p.WellFormed) :
    p.rotated.rotated.rotated.rotated = p := by
  have w1 := rotated_wf p hwf
  have w2 := rotated_wf _ w1
  have w3 := rotated_wf _ w2
  have w4 := rotated_wf _ w3
  have hd : p.rotated.rotated.rotated.rotated.data = p.data := by
    apply grid_ext _ _ p.height.toNat p.width.toNat
    · rw [rotated_length]; rfl
    · have := hwf.2.1; omega
    · intro y hy; exact row_length_of_wf _ w4 y hy
    · intro y hy; exact row_length_of_wf _ hwf y hy
    · intro y x hy hx
      rw [cell_rotated_twice p.rotated.rotated y x hy hx]
      simp only [rotated_width, rotated_height]
      rw [cell_rotated_twice p _ _ (by omega) (by omega)]
      congr 1 <;> omega
  cases p
  simp only [PGM.rotated] at hd ⊢
  simp only [PGM.mk.injEq, and_true, true_and]
  exact hd


/-! ## PBMConv -/

theorem pbmConvCell_row (pgm : PGM) (P Q : List (List Bool)) (j : Int) (row : List Bool) :
    pbmConvCell pgm (P.length : Int) j (P ++ row :: Q) =
      (index pgm.data (P.length : Int) >>= fun srow =>
        index srow j >>= fun v => setIndex row j (decide (v > pgm.max / 2))).map
        (fun r => P ++ r :: Q) := by
  unfold pbmConvCell
  cases h1 : index pgm.data (P.length : Int) with
  | error e => rfl
  | ok srow =>
    cases h2 : index srow j with
    | error e => simp [bind, Except.bind, Except.map, h2]
    | ok v => simp [bind, Except.bind, h2, setIndex2_mid]

theorem pbmConvRow_eq (pgm : PGM) (hwf : pgm.WellFormed) (P : List (List Bool)) (r : List Bool)
    (Q : List (List Bool)) (hy : (P.length : Int) < pgm.height) :
    pbmConvRow pgm (P.length : Int) (P ++ r :: Q) =
      .ok (P ++ ((List.replicate pgm.width.toNat false).mapIdx fun x _ =>
        decide (cell pgm.data P.length x > pgm.max / 2)) :: Q) := by
  have hrl := row_length_of_wf pgm hwf P.length (by omega)
  obtain ⟨hw0, hlen, hrows⟩ := hwf
  have hw : ¬ (pgm.width < 0) := by omega
  unfold pbmConvRow
  simp only [make, hw, if_false, bind, Except.bind, setIndex_mid, forUpTo]
  rw [forRange_row _ _ P Q (pbmConvCell_row pgm P Q)]
  rw [forRange_mapIdx _ (fun x _ => decide (cell pgm.data P.length x > pgm.max / 2))
    pgm.width.toNat _ _ (by simp)]
  · rfl
  · intro pre v suf hl
    have hr : P.length < pgm.data.length := by omega
    rw [index_natCast pgm.data _ [] hr]
    have hc : pre.length < (pgm.data.getD P.length []).length := by
      simp at hl; omega
    simp only [bind, Except.bind]
    rw [index_natCast _ _ 0 hc]
    simp only [setIndex_mid, cell]

theorem PBMConv_eq (pgm : PGM) (hwf : pgm.WellFormed) :
    pgm.PBMConv = .ok ({ data := pgm.thresholded, width := pgm.width, height := pgm.height,
                         magicNumber := "P4" }, pgm) := by
  have hh0 : ¬ (pgm.height < 0) := by have := hwf.2.1; omega
  unfold PGM.PBMConv PGM.thresholded
  simp only [make, hh0, if_false, bind, Except.bind, forUpTo]
  rw [forRange_mapIdx (pbmConvRow pgm) (fun y _ => (List.replicate pgm.width.toNat false).mapIdx
    fun x _ => decide (cell pgm.data y x > pgm.max / 2)) pgm.height.toNat _ _ (by simp)]
  · rfl
  · intro pre v suf hl
    apply pbmConvRow_eq pgm hwf
    simp at hl; omega

theorem thresholded_length (p : PGM) : p.thresholded.length = p.height.toNat := by
  simp [PGM.thresholded]

theorem thresholded_row (p : PGM) (y : Nat) (hy : y < p.height.toNat) :
    p.thresholded.getD y [] =
      (List.replicate p.width.toNat false).mapIdx fun x _ =>
        decide (cell p.data y x > p.max / 2) := by
  have h : y < p.thresholded.length := by rw [thresholded_length]; exact hy
  rw [List.getD_eq_getElem _ _ h]
  simp [PGM.thresholded]

theorem PBM_At_natCast (b : PBM) (x y : Nat) (d : Bool) (hy : y < b.data.length)
    (hx : x < (b.data.getD y []).length) (hw : (x : Int) < b.width) (hh : (y : Int) < b.height) :
    b.At (x : Int) (y : Int) = .ok ((b.data.getD y []).getD x d) := by
  unfold PBM.At
  have h0 : ¬ (b.data.length = 0 ∨ (x : Int) < 0 ∨ (y : Int) < 0 ∨ (x : Int) ≥ b.width ∨
      (y : Int) ≥ b.height) := by omega
  rw [if_neg h0, index_natCast b.data y [] hy]
  simp only [bind, Except.bind]
  rw [index_natCast _ x d hx]


/-! ## Decimal text -/

theorem digitChar_toNat (d : Nat) (hd : d < 10) : (digitChar d).toNat = 48 + d := by
  interval_cases d <;> rfl

theorem digitVal_digitChar (d : Nat) (hd : d < 10) : digitVal (digitChar d) = some d := by
  unfold digitVal
  rw [digitChar_toNat d hd]
  have h1 : 48 ≤ 48 + d ∧ 48 + d ≤ 57 := by omega
  rw [if_pos h1]
  simp

theorem natDigits_ne_nil (fuel n : Nat) (hf : n < fuel) : natDigits fuel n ≠ [] := by
  cases fuel with
  | zero => omega
  | succ fuel =>
    unfold natDigits
    split <;> simp

theorem natDigits_digit : ∀ (fuel n : Nat), ∀ c ∈ natDigits fuel n, 48 ≤ c.toNat ∧ c.toNat ≤ 57 := by
  intro fuel
  induction fuel with
  | zero => intro n c hc; simp [natDigits] at hc
  | succ fuel ih =>
    intro n c hc
    unfold natDigits at hc
    split at hc
    · rename_i hlt
      simp at hc
      rw [hc, digitChar_toNat n hlt]; omega
    · simp at hc
      rcases hc with hc | hc
      · exact ih _ c hc
      · rw [hc, digitChar_toNat _ (Nat.mod_lt _ (by decide))]
        have := Nat.mod_lt n (show 10 > 0 by decide)
        omega

theorem parseUint_append (a b : List Char) : ∀ acc,
    parseUint (a ++ b) acc =
      match parseUint a acc with
      | .value m => parseUint b m
      | r => r := by
  induction a with
  | nil => intro acc; rfl
  | cons c a ih =>
    intro acc
    simp only [List.cons_append, parseUint]
    cases digitVal c with
    | none => rfl
    | some d =>
      by_cases h1 : acc ≥ 1844674407370955162
      · simp only [h1, if_true]
      · by_cases h2 : acc * 10 + d > 2 ^ 64 - 1
        · simp only [h1, h2, if_true, if_false]
        · simp only [h1, h2, if_false]
          exact ih _

theorem parseUint_natDigits : ∀ (fuel n : Nat), n < fuel → n < 2 ^ 64 →
    parseUint (natDigits fuel n) 0 = .value n := by
  intro fuel
  induction fuel with
  | zero => intro n hn; omega
  | succ fuel ih =>
    intro n hn h64
    unfold natDigits
    split
    · rename_i hlt
      have h1 : ¬ (0 ≥ 1844674407370955162) := by omega
      have h2 : ¬ (n > 2 ^ 64 - 1) := by omega
      simp only [parseUint, digitVal_digitChar n hlt, h1, h2, if_false, Nat.zero_mul,
        Nat.zero_add]
    · rename_i hge
      have h10 : n / 10 < fuel := by omega
      have h1 : ¬ (n / 10 ≥ 1844674407370955162) := by omega
      have h2 : ¬ (n / 10 * 10 + n % 10 > 2 ^ 64 - 1) := by omega
      rw [parseUint_append, ih _ h10 (by omega)]
      simp only [parseUint, digitVal_digitChar _ (Nat.mod_lt n (by decide)), h1, h2, if_false]
      congr 1
      omega

theorem Atoi_fmtNat (n : Nat) (hn : n < 2 ^ 63) : Atoi (fmtNat n) = ((n : Int), none) := by
  have hne := natDigits_ne_nil (n + 1) n (by omega)
  have hdig := natDigits_digit (n + 1) n
  have hparse := parseUint_natDigits (n + 1) n (by omega) (by omega)
  unfold Atoi fmtNat
  show (match natDigits (n + 1) n with
    | [] => atoiDigits false []
    | c :: ds =>
      if c = '-' then atoiDigits true ds
      else if c = '+' then atoiDigits false ds
      else atoiDigits false (c :: ds)) = _
  cases hd : natDigits (n + 1) n with
  | nil => exact absurd hd hne
  | cons c ds =>
    have hc := hdig c (by rw [hd]; simp)
    have h1 : c ≠ '-' := by rintro rfl; revert hc; decide
    have h2 : c ≠ '+' := by rintro rfl; revert hc; decide
    simp only [h1, h2, if_false]
    rw [← hd]
    unfold atoiDigits
    have hemp : (natDigits (n + 1) n).isEmpty = false := by
      rw [hd]; rfl
    rw [hemp, hparse]
    simp only [clampInt64]
    have h3 : ¬ (n ≥ 2 ^ 63) := by omega
    simp only [h3, if_false]
    rfl

theorem splitAux_no_sep (sep : Char) : ∀ (b cur : List Char), sep ∉ b →
    splitAux sep b cur = [String.mk (cur.reverse ++ b)] := by
  intro b
  induction b with
  | nil => intro cur _; simp [splitAux]
  | cons c b ih =>
    intro cur hb
    have hc : c ≠ sep := fun e => hb (by rw [e]; simp)
    have hb' : sep ∉ b := fun e => hb (by simp [e])
    simp [splitAux, hc, ih _ hb']

theorem splitAux_sep (sep : Char) (b : List Char) : ∀ (a cur : List Char), sep ∉ a →
    splitAux sep (a ++ sep :: b) cur = String.mk (cur.reverse ++ a) :: splitAux sep b [] := by
  intro a
  induction a with
  | nil => intro cur _; simp [splitAux]
  | cons c a ih =>
    intro cur ha
    have hc : c ≠ sep := fun e => ha (by rw [e]; simp)
    have ha' : sep ∉ a := fun e => ha (by simp [e])
    simp [splitAux, hc, ih _ ha']

theorem natDigits_no_space (fuel n : Nat) : ' ' ∉ natDigits fuel n := by
  intro h
  have := natDigits_digit fuel n _ h
  revert this; decide

theorem Split_dimension (h w : Nat) :
    Split (fmtNat h ++ " " ++ fmtNat w) ' ' = [fmtNat h, fmtNat w] := by
  unfold Split fmtNat
  have e : (String.mk (natDigits (h + 1) h) ++ " " ++ String.mk (natDigits (w + 1) w)).data =
      natDigits (h + 1) h ++ ' ' :: natDigits (w + 1) w := by
    simp [String.data_append]
  rw [e, splitAux_sep _ _ _ _ (natDigits_no_space _ _), splitAux_no_sep _ _ _ (natDigits_no_space _ _)]
  simp

theorem skipComments_dimension (h w : Nat) (rest : List (Option String)) :
    skipComments (some (fmtNat h ++ " " ++ fmtNat w) :: rest) =
      .ok { pending := rest, tok := fmtNat h ++ " " ++ fmtNat w } := by
  have hne := natDigits_ne_nil (h + 1) h (by omega)
  have hdig := natDigits_digit (h + 1) h
  have e : (fmtNat h ++ " " ++ fmtNat w).data =
      natDigits (h + 1) h ++ ' ' :: natDigits (w + 1) w := by
    simp [fmtNat, String.data_append]
  unfold skipComments
  rw [e]
  cases hd : natDigits (h + 1) h with
  | nil => exact absurd hd hne
  | cons c ds =>
    have hc := hdig c (by rw [hd]; simp)
    have h1 : c ≠ '#' := by rintro rfl; revert hc; decide
    simp [h1]


/-! ## ReadPBM on a well-formed ASCII bitmap -/

theorem allocPBM_eq (w h : Nat) :
    forUpTo (h : Int) (allocPBMRow (w : Int)) (List.replicate h ([] : List Bool)) =
      .ok (List.replicate h (List.replicate w false)) := by
  unfold forUpTo
  rw [Int.toNat_ofNat, forRange_mapIdx (allocPBMRow (w : Int)) (fun _ _ => List.replicate w false) h
    _ _ (by simp)]
  · congr 1
    apply List.ext_getElem <;> simp
  · intro pre v suf _
    have hw : ¬ ((w : Int) < 0) := by omega
    simp only [allocPBMRow, make, hw, if_false, bind, Except.bind, setIndex_mid, Int.toNat_ofNat]

theorem readPBMCell_row (hori : List String) (P Q : List (List Bool)) (j : Int)
    (row : List Bool) :
    readPBMCell hori (P.length : Int) j (P ++ row :: Q) =
      (index hori j >>= fun tokn =>
        if (Atoi tokn).1 = 1 then setIndex row j true else pure row).map
        (fun r => P ++ r :: Q) := by
  unfold readPBMCell
  cases h1 : index hori j with
  | error e => rfl
  | ok tokn =>
    by_cases h2 : (Atoi tokn).1 = 1
    · simp [bind, Except.bind, h2, setIndex2_mid]
    · simp [bind, Except.bind, h2, Except.map, pure, Except.pure]

theorem readPBMRow_eq (w : Nat) (r : String) (ps : List (Option String)) (tok : String)
    (P : List (List Bool)) (Q : List (List Bool)) (hr : (Fields r).length = w) :
    readPBMRow (w : Int) (P.length : Int)
        ({ pending := some r :: ps, tok := tok }, P ++ List.replicate w false :: Q) =
      .ok ({ pending := ps, tok := r }, P ++ decodeRow w r :: Q) := by
  unfold readPBMRow
  simp only [Scanner.Scan, Scanner.Text, forUpTo, Int.toNat_ofNat]
  rw [forRange_row _ _ P Q (readPBMCell_row (Fields r) P Q)]
  rw [forRange_mapIdx _ (fun j v => if (Atoi ((Fields r).getD j "")).1 = 1 then true else v)
    w _ _ (by simp)]
  · rfl
  · intro pre v suf hl
    have hj : pre.length < (Fields r).length := by simp at hl; omega
    rw [index_natCast _ _ "" hj]
    show (if (Atoi ((Fields r).getD pre.length "")).1 = 1
      then setIndex (pre ++ v :: suf) (pre.length : Int) true
      else pure (pre ++ v :: suf)) = _
    by_cases h2 : (Atoi ((Fields r).getD pre.length "")).1 = 1
    · rw [if_pos h2, setIndex_mid]
      show _ = Except.ok (pre ++
        (if (Atoi ((Fields r).getD pre.length "")).1 = 1 then true else v) :: suf)
      rw [if_pos h2]
    · rw [if_neg h2]
      show _ = Except.ok (pre ++
        (if (Atoi ((Fields r).getD pre.length "")).1 = 1 then true else v) :: suf)
      rw [if_neg h2]; rfl

theorem readPBMRows_eq (w : Nat) (rest : List (Option String)) :
    ∀ (rs : List String) (tok : String)
    (P : List (List Bool)), (∀ r ∈ rs, (Fields r).length = w) →
    ∃ sc, forRange (readPBMRow (w : Int)) rs.length (P.length : Int)
        ({ pending := rs.map some ++ rest, tok := tok },
          P ++ List.replicate rs.length (List.replicate w false)) =
      .ok (sc, P ++ rs.map (decodeRow w)) := by
  intro rs
  induction rs with
  | nil => intro tok P _; exact ⟨{ pending := rest, tok := tok }, by simp [forRange]⟩
  | cons r rs ih =>
    intro tok P hrs
    have hr := hrs r (by simp)
    obtain ⟨sc, hsc⟩ := ih r (P ++ [decodeRow w r]) (fun r' hr' => hrs r' (by simp [hr']))
    refine ⟨sc, ?_⟩
    simp only [List.length_cons, List.replicate_succ, List.map_cons, List.cons_append, forRange,
      readPBMRow_eq w r (rs.map some ++ rest) tok P _ hr]
    have e1 : P ++ decodeRow w r :: List.replicate rs.length (List.replicate w false) =
        (P ++ [decodeRow w r]) ++ List.replicate rs.length (List.replicate w false) := by simp
    have e2 : ((P.length : Int) + 1) = ((P ++ [decodeRow w r]).length : Int) := by simp
    rw [e1, e2, hsc]
    simp

theorem decodeRow_getD (w : Nat) (r : String) (x : Nat) (hx : x < w)
    (ht : (Fields r).getD x "" = "0" ∨ (Fields r).getD x "" = "1") :
    (decodeRow w r).getD x false = decide ((Fields r).getD x "" = "1") := by
  unfold decodeRow
  rw [List.getD_eq_getElem _ _ (by simpa using hx)]
  have a0 : (Atoi "0").1 ≠ 1 := by decide
  have a1 : (Atoi "1").1 = 1 := by decide
  rcases ht with ht | ht
  · rw [List.getElem_mapIdx, ht, if_neg a0, List.getElem_replicate]; decide
  · rw [List.getElem_mapIdx, ht, if_pos a1]; decide


theorem ReadPBM_eq (text : String) (h w : Nat) (rows : List String)
    (rest : List (Option String)) (hh63 : h < 2 ^ 63) (hw63 : w < 2 ^ 63)
    (hlines : scanLines text =
      some "P1" :: some (fmtNat h ++ " " ++ fmtNat w) :: (rows.map some ++ rest))
    (hrows : rows.length = h) (htok : ∀ r ∈ rows, (Fields r).length = w) :
    ReadPBM text = .ok (some { data := rows.map (decodeRow w), width := (w : Int),
                               height := (h : Int), magicNumber := "P1" }, none) := by
  have ht : TrimSpace "P1" = "P1" := by decide
  have hc : ¬ (("P1" : String) ≠ "P1" ∧ ("P1" : String) ≠ "P4") := by decide
  have i0 : index [fmtNat h, fmtNat w] 0 = .ok (fmtNat h) := rfl
  have i1 : index [fmtNat h, fmtNat w] 1 = .ok (fmtNat w) := rfl
  have hh0 : ¬ ((h : Int) < 0) := by omega
  obtain ⟨sc, hsc⟩ := readPBMRows_eq w rest rows (fmtNat h ++ " " ++ fmtNat w) [] htok
  rw [hrows] at hsc
  unfold ReadPBM
  simp only [NewScanner, hlines, Scanner.Scan, Scanner.Text, ht, hc, if_false,
    skipComments_dimension, bind, Except.bind, Split_dimension, i0, i1, Atoi_fmtNat h hh63,
    Atoi_fmtNat w hw63, make, hh0, Int.toNat_ofNat, allocPBM_eq, if_true]
  unfold forUpTo
  rw [Int.toNat_ofNat]
  simp only [List.length_nil, Nat.cast_zero, List.nil_append] at hsc
  rw [hsc]
  rfl


/-! ## Accessors -/

/-- C6: `PBM.At` is lenient. For every bitmap buffer and every `(x, y)` with
`x < 0`, `y < 0`, `x ≥ width` or `y ≥ height`, and for every `(x, y)` when the
data is empty, `At(x, y)` returns `false` without a panic. -/
theorem PBM_At_out_of_bounds (p : PBM) (x y : Int)
    (h : p.data = [] ∨ x < 0 ∨ y < 0 ∨ x ≥ p.width ∨ y ≥ p.height) :
    p.At x y = .ok false := by
  unfold PBM.At
  have h' : p.data.length = 0 ∨ x < 0 ∨ y < 0 ∨ x ≥ p.width ∨ y ≥ p.height := by
    rcases h with h | h
    · left; simp [h]
    · right; exact h
  rw [if_pos h']
  rfl

theorem PBM_At_out_of_bounds_witness :
    ((PBM.mk [[true, true], [true, true]] 2 2 "P1").WellFormed ∧
      (PBM.mk [[true, true], [true, true]] 2 2 "P1").At 2 0 = .ok false) ∧
    (PBM.mk [[true, true], [true, true]] 2 2 "P1").At 0 (-1) = .ok false ∧
    (PBM.mk [] 2 2 "P1").At 1 1 = .ok false :=
  ⟨⟨by decide, PBM_At_out_of_bounds _ 2 0 (by decide)⟩,
   PBM_At_out_of_bounds _ 0 (-1) (by decide),
   PBM_At_out_of_bounds _ 1 1 (by decide)⟩

/-- C7 (fails on the code): `PGM.At` has no bounds guard. On the well-formed
1 x 1 greymap with sample 7, `At(1, 0)` stops with an index panic instead of
returning 0. -/
theorem PGM_At_out_of_bounds_panics :
    (PGM.mk [[7]] 1 1 "P2" 255).WellFormed ∧
      (PGM.mk [[7]] 1 1 "P2" 255).At 1 0 = .error "index out of range" ∧
      (PGM.mk [[7]] 1 1 "P2" 255).At 0 1 = .error "index out of range" := by
  decide

/-! ## Rotation -/

/-- C8: one quarter turn. For every well-formed greymap, `ROTA` returns a
buffer whose width is the old height and whose height is the old width, whose
data has (new height) rows of (new width) samples, whose max and tag are
unchanged, and with `rotated.At(x, y) = original.At(y, height - 1 - x)` for
all `0 ≤ x < old height`, `0 ≤ y < old width`. -/
theorem ROTA_quarter_turn (p : PGM) (hwf : p.WellFormed) :
    ∃ r, p.ROTA = .ok r ∧ r.width = p.height ∧ r.height = p.width ∧
      (r.data.length : Int) = r.height ∧ (∀ row ∈ r.data, (row.length : Int) = r.width) ∧
      r.max = p.max ∧ r.magicNumber = p.magicNumber ∧
      ∀ x y : Int, 0 ≤ x → x < p.height → 0 ≤ y → y < p.width →
        ∃ v, r.At x y = .ok v ∧ p.At y (p.height - 1 - x) = .ok v := by
  have w1 := rotated_wf p hwf
  refine ⟨p.rotated, ROTA_eq p hwf, rfl, rfl, w1.2.1, w1.2.2, rfl, rfl, ?_⟩
  intro x y hx0 hx hy0 hy
  lift x to ℕ using hx0
  lift y to ℕ using hy0
  have hxH : x < p.height.toNat := by omega
  have hyW : y < p.width.toNat := by omega
  refine ⟨cell p.data (p.height.toNat - 1 - x) y, ?_, ?_⟩
  · rw [At_natCast p.rotated x y (by rw [rotated_length]; exact hyW)
      (by rw [row_length_of_wf _ w1 y (by rw [rotated_height]; exact hyW), rotated_width]
          exact hxH)]
    rw [cell_rotated p y x hyW hxH]
  · have e : p.height - 1 - (x : Int) = ((p.height.toNat - 1 - x : Nat) : Int) := by omega
    have hlen := hwf.2.1
    rw [e, At_natCast p y (p.height.toNat - 1 - x) (by omega)
      (by rw [row_length_of_wf _ hwf _ (by omega)]; exact hyW)]

theorem ROTA_quarter_turn_witness :
    (PGM.mk [[10, 20, 30], [40, 50, 60]] 3 2 "P2" 255).WellFormed ∧
    ∃ r, (PGM.mk [[10, 20, 30], [40, 50, 60]] 3 2 "P2" 255).ROTA = .ok r ∧
      r.width = 2 ∧ r.height = 3 ∧
      (r.data.length : Int) = r.height ∧ (∀ row ∈ r.data, (row.length : Int) = r.width) ∧
      r.max = 255 ∧ r.magicNumber = "P2" ∧
      ∀ x y : Int, 0 ≤ x → x < 2 → 0 ≤ y → y < 3 →
        ∃ v, r.At x y = .ok v ∧
          (PGM.mk [[10, 20, 30], [40, 50, 60]] 3 2 "P2" 255).At y (2 - 1 - x) = .ok v :=
  ⟨by decide, ROTA_quarter_turn (PGM.mk [[10, 20, 30], [40, 50, 60]] 3 2 "P2" 255) (by decide)⟩

/-- C9: four quarter turns are the identity. For every well-formed greymap
(width 0 and height 0 included), four calls of `ROTA` in a row return the
original buffer: same width, height, max, tag and data. -/
theorem ROTA_four_times (p : PGM) (hwf : p.WellFormed) :
    (p.ROTA >>= PGM.ROTA >>= PGM.ROTA >>= PGM.ROTA) = .ok p := by
  have w1 := rotated_wf p hwf
  have w2 := rotated_wf _ w1
  have w3 := rotated_wf _ w2
  rw [ROTA_eq p hwf]
  show (p.rotated.ROTA >>= PGM.ROTA >>= PGM.ROTA) = _
  rw [ROTA_eq _ w1]
  show (p.rotated.rotated.ROTA >>= PGM.ROTA) = _
  rw [ROTA_eq _ w2]
  show p.rotated.rotated.rotated.ROTA = _
  rw [ROTA_eq _ w3, rotated_four p hwf]

theorem ROTA_four_times_witness :
    (PGM.mk [[], [], []] 0 3 "P2" 255).WellFormed ∧
    ((PGM.mk [[], [], []] 0 3 "P2" 255).ROTA >>= PGM.ROTA >>= PGM.ROTA >>= PGM.ROTA) =
      .ok (PGM.mk [[], [], []] 0 3 "P2" 255) :=
  ⟨by decide, ROTA_four_times _ (by decide)⟩

/-! ## Conversion -/

/-- C10: greymap to bitmap. For every well-formed greymap, `PBMConv` returns a
bitmap of the same width and height, with `height` rows of `width` samples,
whose sample at every in-bounds `(x, y)` is true exactly when the greymap
sample there is strictly greater than `max / 2` (integer division); the
greymap itself is unchanged by the call. -/
theorem PBMConv_threshold (p : PGM) (hwf : p.WellFormed) :
    ∃ b, p.PBMConv = .ok (b, p) ∧ b.width = p.width ∧ b.height = p.height ∧ b.WellFormed ∧
      ∀ x y : Int, 0 ≤ x → x < p.width → 0 ≤ y → y < p.height →
        ∃ v, p.At x y = .ok v ∧ b.At x y = .ok (decide (v > p.max / 2)) := by
  have hlen := hwf.2.1
  have hwfb : (PBM.mk p.thresholded p.width p.height "P4").WellFormed := by
    refine ⟨hwf.1, ?_, ?_⟩
    · show (p.thresholded.length : Int) = p.height
      rw [thresholded_length]; omega
    · intro row hrow
      show (row.length : Int) = p.width
      obtain ⟨y, hy, rfl⟩ := List.mem_iff_getElem.mp hrow
      have hy' : y < p.height.toNat := by rw [thresholded_length] at hy; exact hy
      have := thresholded_row p y hy'
      rw [List.getD_eq_getElem _ _ hy] at this
      rw [this]
      have := hwf.1
      simp
      omega
  refine ⟨_, PBMConv_eq p hwf, rfl, rfl, hwfb, ?_⟩
  intro x y hx0 hx hy0 hy
  lift x to ℕ using hx0
  lift y to ℕ using hy0
  have hxW : x < p.width.toNat := by omega
  have hyH : y < p.height.toNat := by omega
  refine ⟨cell p.data y x, ?_, ?_⟩
  · rw [At_natCast p x y (by omega) (by rw [row_length_of_wf _ hwf y hyH]; exact hxW)]
  · rw [PBM_At_natCast _ x y false (by show y < p.thresholded.length
                                       rw [thresholded_length]; exact hyH)
      (by show x < (p.thresholded.getD y []).length
          rw [thresholded_row p y hyH]; simpa using hxW) hx hy]
    show Except.ok ((p.thresholded.getD y []).getD x false) = _
    rw [thresholded_row p y hyH, List.getD_eq_getElem _ _ (by simpa using hxW)]
    simp

theorem PBMConv_threshold_witness :
    (PGM.mk [[127, 128]] 2 1 "P2" 255).WellFormed ∧
    (∃ b, (PGM.mk [[127, 128]] 2 1 "P2" 255).PBMConv = .ok (b, PGM.mk [[127, 128]] 2 1 "P2" 255) ∧
      b.width = 2 ∧ b.height = 1 ∧ b.WellFormed ∧
      ∀ x y : Int, 0 ≤ x → x < 2 → 0 ≤ y → y < 1 →
        ∃ v, (PGM.mk [[127, 128]] 2 1 "P2" 255).At x y = .ok v ∧
          b.At x y = .ok (decide (v > 255 / 2))) ∧
    (PGM.mk [[127, 128]] 2 1 "P2" 255).PBMConv =
      .ok (PBM.mk [[false, true]] 2 1 "P4", PGM.mk [[127, 128]] 2 1 "P2" 255) :=
  ⟨by decide, PBMConv_threshold (PGM.mk [[127, 128]] 2 1 "P2" 255) (by decide), by decide⟩


/-- C3 (amended): ASCII bitmap decode. For every text of which the scanner
delivers the first `h + 2` lines, each of them being shorter than 65536 bytes,
whose first line is `P1`, whose dimension line is `h w` (two decimal integers
in the range of a Go `int`, rows first, one space between them) and which
goes on with `h` lines of `w` whitespace-separated tokens that are each `0`
or `1`, `ReadPBM` returns a buffer and no error, with `Size() = (w, h)` and,
for all `x < w`, `y < h`, `At(x, y)` true exactly when token `x` of sample
line `y` is `1`. -/
theorem ReadPBM_ascii_decode (text : String) (h w : Nat) (rows : List String)
    (rest : List (Option String)) (hh63 : h < 2 ^ 63) (hw63 : w < 2 ^ 63)
    (hlines : scanLines text =
      some "P1" :: some (fmtNat h ++ " " ++ fmtNat w) :: (rows.map some ++ rest))
    (hrows : rows.length = h)
    (htok : ∀ r ∈ rows, (Fields r).length = w ∧ ∀ t ∈ Fields r, t = "0" ∨ t = "1") :
    ∃ b, ReadPBM text = .ok (some b, none) ∧ b.Size = ((w : Int), (h : Int)) ∧
      ∀ x y : Nat, x < w → y < h →
        b.At (x : Int) (y : Int) =
          .ok (decide ((Fields (rows.getD y "")).getD x "" = "1")) := by
  refine ⟨_, ReadPBM_eq text h w rows rest hh63 hw63 hlines hrows (fun r hr => (htok r hr).1),
    rfl, ?_⟩
  intro x y hx hy
  have hy' : y < rows.length := by omega
  have hmem : rows.getD y "" ∈ rows := by
    rw [List.getD_eq_getElem _ _ hy']; exact List.getElem_mem _
  obtain ⟨hlen, hall⟩ := htok _ hmem
  have hx' : x < (Fields (rows.getD y "")).length := by omega
  have htk : (Fields (rows.getD y "")).getD x "" ∈ Fields (rows.getD y "") := by
    rw [List.getD_eq_getElem _ _ hx']; exact List.getElem_mem _
  have hrow : (rows.map (decodeRow w)).getD y [] = decodeRow w (rows.getD y "") := by
    rw [List.getD_eq_getElem _ _ (by simpa using hy'), List.getD_eq_getElem _ _ hy']
    simp
  rw [PBM_At_natCast _ x y false (by simpa using hy')
    (by show x < ((rows.map (decodeRow w)).getD y []).length
        rw [hrow]; simpa [decodeRow] using hx)
    (by show (x : Int) < (w : Int); omega) (by show (y : Int) < (h : Int); omega)]
  show Except.ok (((rows.map (decodeRow w)).getD y []).getD x false) = _
  rw [hrow, decodeRow_getD w _ x hx (hall _ htk)]

theorem ReadPBM_ascii_decode_witness :
    ((2 : Nat) < 2 ^ 63 ∧ (3 : Nat) < 2 ^ 63 ∧
      scanLines "P1\n2 3\n1 0 1\n0 1 0\n" =
        some "P1" :: some (fmtNat 2 ++ " " ++ fmtNat 3) ::
          (["1 0 1", "0 1 0"].map some ++ []) ∧
      ["1 0 1", "0 1 0"].length = 2 ∧
      ∀ r ∈ ["1 0 1", "0 1 0"], (Fields r).length = 3 ∧ ∀ t ∈ Fields r, t = "0" ∨ t = "1") ∧
    ∃ b, ReadPBM "P1\n2 3\n1 0 1\n0 1 0\n" = .ok (some b, none) ∧
      b.Size = (((3 : Nat) : Int), ((2 : Nat) : Int)) ∧
      ∀ x y : Nat, x < 3 → y < 2 →
        b.At (x : Int) (y : Int) =
          .ok (decide ((Fields (["1 0 1", "0 1 0"].getD y "")).getD x "" = "1")) :=
  ⟨by decide,
   ReadPBM_ascii_decode "P1\n2 3\n1 0 1\n0 1 0\n" 2 3 ["1 0 1", "0 1 0"] []
     (by decide) (by decide) (by decide) (by decide) (by decide)⟩

/-! ## Failures of the decoders and of the round trip -/

/-- C1 (fails on the code): `Save` writes the dimension line as `width height`
and `ReadPBM` reads it as `height width`. For the well-formed `P1` bitmap of
width 3 and height 2, `ReadPBM` on the text `Save` wrote reads three rows of
two samples and stops with an index panic on the missing third line. -/
theorem Save_ReadPBM_non_square_panics :
    (PBM.mk [[true, false, true], [false, true, false]] 3 2 "P1").WellFormed ∧
    (PBM.mk [[true, false, true], [false, true, false]] 3 2 "P1").Save =
      ("P1\n3 2\n1 0 1 \n0 1 0 \n", none) ∧
    ReadPBM (PBM.mk [[true, false, true], [false, true, false]] 3 2 "P1").Save.1 =
      .error "index out of range" := by
  decide

/-- C2 (fails on the code): `readP2` takes its first row from the token the
scanner already holds, the max line. For the well-formed `P2` greymap of
width 3 and height 2 with max 255, `GetPGM` on the text `Save` wrote stops
with an index panic at `VALl[1]` of the one-field line `255`. -/
theorem Save_GetPGM_panics :
    (PGM.mk [[10, 20, 30], [40, 50, 60]] 3 2 "P2" 255).WellFormed ∧
    (PGM.mk [[10, 20, 30], [40, 50, 60]] 3 2 "P2" 255).Save =
      ("P2\n3 2\n255\n10 20 30 \n40 50 60 \n", none) ∧
    ∀ unread, GetPGM (PGM.mk [[10, 20, 30], [40, 50, 60]] 3 2 "P2" 255).Save.1 unread =
      .error "index out of range" :=
  ⟨by decide, by decide, fun _ => by rfl⟩

/-- C4 (fails on the code): on the text `P2 / 3 2 / 255 / 10 20 30 / 40 50 60`
`GetPGM` stops with an index panic; on a greymap of width 1 it returns, with
the max line as the first row and the last sample line dropped. -/
theorem GetPGM_ascii_decode_panics :
    (∀ unread, GetPGM "P2\n3 2\n255\n10 20 30\n40 50 60\n" unread =
      .error "index out of range") ∧
    (∀ unread, GetPGM "P2\n1 2\n255\n10\n40\n" unread =
      .ok (some (PGM.mk [[255], [10]] 1 2 "P2" 255), none)) :=
  ⟨fun _ => by rfl, fun _ => by rfl⟩

/-- C5 (fails on the code): `ReadPBM` rejects the tag `P9` with an error and
no buffer, but `GetPGM` indexes the fields of the dimension line before it
looks at the tag: on a text made of the line `P9` alone, or of `P9` and a
one-field line, it stops with an index panic. -/
theorem GetPGM_bad_magic_panics :
    ReadPBM "P9\n" = .ok (none, some "error P9") ∧
    (∀ unread, GetPGM "P9\n" unread = .error "index out of range") ∧
    (∀ unread, GetPGM "P9\n5\n" unread = .error "index out of range") ∧
    (∀ unread, GetPGM "P9\n3 2\n255\n" unread =
      .ok (none, some "unsupported PGM format: P9")) :=
  ⟨by decide, fun _ => by rfl, fun _ => by rfl, fun _ => by rfl⟩


/-! ## Loops over the rows of a grid -/

/-- A loop whose round `k` rewrites element `k` of a slice of `n` elements,
when every element of the slice satisfies `ok`. -/
theorem forRange_mapIdx_of_aux {α : Type} (b : Int → List α → Run (List α)) (h : Nat → α → α)
    (ok : α → Prop) (n : Nat)
    (hb : ∀ (pre : List α) (v : α) (suf : List α), (pre ++ v :: suf).length = n → ok v →
      b (pre.length : Int) (pre ++ v :: suf) = .ok (pre ++ h pre.length v :: suf)) :
    ∀ (suf pre : List α), (pre ++ suf).length = n → (∀ v ∈ suf, ok v) →
      forRange b suf.length (pre.length : Int) (pre ++ suf) =
        .ok (pre ++ suf.mapIdx (fun j v => h (pre.length + j) v)) := by
  intro suf
  induction suf with
  | nil => intro pre _ _; simp [forRange]
  | cons v suf ih =>
    intro pre hlen hok
    simp only [List.length_cons, forRange, hb pre v suf hlen (hok v (by simp))]
    have e1 : pre ++ h pre.length v :: suf = (pre ++ [h pre.length v]) ++ suf := by simp
    have e2 : ((pre.length : Int) + 1) = ((pre ++ [h pre.length v]).length : Int) := by simp
    rw [e1, e2, ih (pre ++ [h pre.length v]) (by simpa using hlen)
      (fun u hu => hok u (by simp [hu]))]
    simp [List.mapIdx_cons, Nat.add_assoc, Nat.add_comm 1]

theorem forRange_map_of {α : Type} (b : Int → List α → Run (List α)) (f : α → α)
    (ok : α → Prop) (n : Nat)
    (hb : ∀ (pre : List α) (v : α) (suf : List α), (pre ++ v :: suf).length = n → ok v →
      b (pre.length : Int) (pre ++ v :: suf) = .ok (pre ++ f v :: suf))
    (l : List α) (hl : l.length = n) (hok : ∀ v ∈ l, ok v) :
    forRange b n 0 l = .ok (l.map f) := by
  have := forRange_mapIdx_of_aux b (fun _ v => f v) ok n hb l [] (by simpa using hl) hok
  rw [hl] at this
  simp only [List.length_nil, Nat.cast_zero, List.nil_append] at this
  rw [this]
  congr 1
  apply List.ext_getElem <;> simp

/-! ## Invert -/

theorem updateCell_row {α : Type} (f : α → α) (P Q : List (List α)) (j : Int) (row : List α) :
    updateCell f (P.length : Int) j (P ++ row :: Q) =
      (index row j >>= fun v => setIndex row j (f v)).map (fun r => P ++ r :: Q) := by
  unfold updateCell
  rw [index_mid]
  cases h2 : index row j with
  | error e => simp [bind, Except.bind, Except.map, h2]
  | ok v => simp [bind, Except.bind, h2, setIndex2_mid]

/-- Closed form of the loops of `Invert`: every sample is replaced by its image under `f`. -/
theorem invertLoop_eq {α : Type} (f : α → α) (width height : Int) (data : List (List α))
    (hlen : (data.length : Int) = height) (hrows : ∀ row ∈ data, (row.length : Int) = width) :
    forUpTo height (fun r d => forUpTo width (fun c d => updateCell f r c d) d) data =
      .ok (data.map (List.map f)) := by
  unfold forUpTo
  have hH : height.toNat = data.length := by omega
  rw [hH]
  apply forRange_map_of _ (List.map f) (fun row => (row.length : Int) = width) _ _ _ rfl hrows
  intro P row Q _ hrow
  have hW : width.toNat = row.length := by omega
  rw [forRange_row _ _ P Q (updateCell_row f P Q), hW,
    forRange_map_of _ f (fun _ => True) row.length _ row rfl (fun _ _ => trivial)]
  · rfl
  · intro pre v suf _ _
    rw [index_mid]
    simp only [bind, Except.bind, setIndex_mid]


/-! ## Flip and Flop -/

theorem swapAt_ends {α : Type} (L M R : List α) (x y : α) :
    swapAt (L.length : Int) ((L ++ x :: M).length : Int) (L ++ x :: M ++ y :: R) =
      .ok (L ++ y :: M ++ x :: R) := by
  have e1 : L ++ x :: M ++ y :: R = (L ++ x :: M) ++ y :: R := by simp
  have e2 : L ++ x :: M ++ y :: R = L ++ x :: (M ++ y :: R) := by simp
  have e3 : L ++ y :: (M ++ y :: R) = (L ++ y :: M) ++ y :: R := by simp
  have e4 : ((L ++ x :: M).length : Int) = ((L ++ y :: M).length : Int) := by simp
  unfold swapAt
  rw [e1, index_mid, ← e1, e2, index_mid]
  simp only [bind, Except.bind, setIndex_mid]
  rw [e3, e4, setIndex_mid]

/-- The swap loop of `Flip` and `Flop` on a slice of `n` elements: after the
rounds for the outer `L.length` positions, the rest of the rounds reverse the
middle part. -/
theorem swapLoop_aux {α : Type} (n : Int) : ∀ (m : Nat) (L mid R : List α),
    L.length = R.length → mid.length / 2 = m → ((L ++ mid ++ R).length : Int) = n →
    forRange (fun c d => swapAt c (n - c - 1) d) m (L.length : Int) (L ++ mid ++ R) =
      .ok (L ++ mid.reverse ++ R) := by
  intro m
  induction m with
  | zero =>
    intro L mid R _ hm _
    have hmid : mid.reverse = mid := by
      match mid, hm with
      | [], _ => rfl
      | [_], _ => rfl
      | _ :: _ :: t, hm => simp at hm; omega
    rw [hmid]; rfl
  | succ m ih =>
    intro L mid R hLR hm hn
    match mid, hm, hn with
    | [], hm, _ => simp at hm
    | [z], hm, _ =>
      have h0 : [z].length / 2 = 0 := by simp
      omega
    | x :: y0 :: t, hm, hn =>
      obtain ⟨M, y, hM⟩ : ∃ M y, y0 :: t = M ++ [y] := by
        rcases List.eq_nil_or_concat (y0 :: t) with h | ⟨M, y, h⟩
        · simp at h
        · exact ⟨M, y, by simpa using h⟩
      rw [hM] at hm hn ⊢
      have hb : n - (L.length : Int) - 1 = ((L ++ x :: M).length : Int) := by
        simp at hn ⊢; omega
      have e1 : L ++ (x :: (M ++ [y])) ++ R = L ++ x :: M ++ y :: R := by simp
      have e2 : L ++ y :: M ++ x :: R = (L ++ [y]) ++ M ++ (x :: R) := by simp
      have e3 : ((L.length : Int) + 1) = ((L ++ [y]).length : Int) := by simp
      simp only [forRange, hb]
      rw [e1, swapAt_ends]
      show forRange _ m ((L.length : Int) + 1) (L ++ y :: M ++ x :: R) = _
      rw [e2, e3, ih (L ++ [y]) M (x :: R) (by simp [hLR])
        (by simp at hm; omega) (by rw [← hn]; simp)]
      simp

theorem swapLoop_reverse {α : Type} (n : Int) (l : List α) (hn : (l.length : Int) = n) :
    forUpTo (n.tdiv 2) (fun c d => swapAt c (n - c - 1) d) l = .ok l.reverse := by
  have h2 : (n.tdiv 2).toNat = l.length / 2 := by
    have h3 : (l.length : Int).tdiv 2 = ((l.length / 2 : Nat) : Int) := by
      rw [Int.ofNat_tdiv]; rfl
    rw [← hn, h3, Int.toNat_ofNat]
  have := swapLoop_aux n (l.length / 2) [] l [] rfl rfl (by simpa using hn)
  unfold forUpTo
  rw [h2]
  simpa using this

theorem swapCells_row {α : Type} (P Q : List (List α)) (a b : Int) (row : List α) :
    swapCells (P.length : Int) a b (P ++ row :: Q) =
      (swapAt a b row).map (fun r => P ++ r :: Q) := by
  unfold swapCells swapAt
  rw [index_mid]
  cases h1 : index row b with
  | error e => simp [bind, Except.bind, Except.map, h1]
  | ok vb =>
    cases h2 : index row a with
    | error e => simp [bind, Except.bind, Except.map, h1, h2]
    | ok va =>
      cases h3 : setIndex row a vb with
      | error e => simp [bind, Except.bind, Except.map, h1, h2, h3, setIndex2_mid]
      | ok row' => simp [bind, Except.bind, Except.map, h1, h2, h3, setIndex2_mid]

/-- Closed form of the loops of `Flip`: every row is reversed. -/
theorem flipLoop_eq {α : Type} (width height : Int) (data : List (List α))
    (hlen : (data.length : Int) = height) (hrows : ∀ row ∈ data, (row.length : Int) = width) :
    flipLoop width height data = .ok (data.map List.reverse) := by
  unfold flipLoop
  have hH : height.toNat = data.length := by omega
  show forRange _ height.toNat 0 data = _
  rw [hH]
  apply forRange_map_of _ List.reverse (fun row => (row.length : Int) = width) _ _ _ rfl hrows
  intro P row Q _ hrow
  have := swapLoop_reverse width row hrow
  unfold forUpTo at this ⊢
  rw [forRange_row _ _ P Q (fun j r => swapCells_row P Q j (width - j - 1) r), this]
  rfl

/-- Closed form of the loop of `Flop`: the order of the rows is reversed. -/
theorem flopLoop_eq {α : Type} (height : Int) (data : List (List α))
    (hlen : (data.length : Int) = height) :
    flopLoop height data = .ok data.reverse :=
  swapLoop_reverse height data hlen


/-! ## Closed forms of the in-place methods -/

theorem PBM_Invert_eq (p : PBM) (hwf : p.WellFormed) :
    p.Invert = .ok { p with data := p.data.map (List.map fun v => !v) } := by
  unfold PBM.Invert
  rw [invertLoop_eq _ p.width p.height p.data hwf.2.1 hwf.2.2]
  rfl

theorem PGM_Invert_eq (p : PGM) (hwf : p.WellFormed) :
    p.Invert = .ok { p with data := p.data.map (List.map fun v => subUint8 p.max v) } := by
  unfold PGM.Invert
  rw [invertLoop_eq _ p.width p.height p.data hwf.2.1 hwf.2.2]
  rfl

theorem PBM_Flip_eq (p : PBM) (hwf : p.WellFormed) :
    p.Flip = .ok { p with data := p.data.map List.reverse } := by
  unfold PBM.Flip
  rw [flipLoop_eq p.width p.height p.data hwf.2.1 hwf.2.2]
  rfl

theorem PGM_Flip_eq (p : PGM) (hwf : p.WellFormed) :
    p.Flip = .ok { p with data := p.data.map List.reverse } := by
  unfold PGM.Flip
  rw [flipLoop_eq p.width p.height p.data hwf.2.1 hwf.2.2]
  rfl

theorem PBM_Flop_eq (p : PBM) (hwf : p.WellFormed) :
    p.Flop = .ok { p with data := p.data.reverse } := by
  unfold PBM.Flop
  rw [flopLoop_eq p.height p.data hwf.2.1]
  rfl

theorem PGM_Flop_eq (p : PGM) (hwf : p.WellFormed) :
    p.Flop = .ok { p with data := p.data.reverse } := by
  unfold PGM.Flop
  rw [flopLoop_eq p.height p.data hwf.2.1]
  rfl

theorem PBM_wf_map (p : PBM) (hwf : p.WellFormed) (f : List Bool → List Bool)
    (hf : ∀ row, (f row).length = row.length) :
    PBM.WellFormed { p with data := p.data.map f } := by
  refine ⟨hwf.1, ?_, ?_⟩
  · show (((p.data.map f).length : Nat) : Int) = p.height
    rw [List.length_map]; exact hwf.2.1
  · intro row hrow
    obtain ⟨r, hr, rfl⟩ := List.mem_map.mp hrow
    show (((f r).length : Nat) : Int) = p.width
    rw [hf]; exact hwf.2.2 r hr

theorem PGM_wf_map (p : PGM) (hwf : p.WellFormed) (f : List Nat → List Nat)
    (hf : ∀ row, (f row).length = row.length) :
    PGM.WellFormed { p with data := p.data.map f } := by
  refine ⟨hwf.1, ?_, ?_⟩
  · show (((p.data.map f).length : Nat) : Int) = p.height
    rw [List.length_map]; exact hwf.2.1
  · intro row hrow
    obtain ⟨r, hr, rfl⟩ := List.mem_map.mp hrow
    show (((f r).length : Nat) : Int) = p.width
    rw [hf]; exact hwf.2.2 r hr

theorem PBM_wf_reverse (p : PBM) (hwf : p.WellFormed) :
    PBM.WellFormed { p with data := p.data.reverse } := by
  refine ⟨hwf.1, ?_, ?_⟩
  · show ((p.data.reverse.length : Nat) : Int) = p.height
    rw [List.length_reverse]; exact hwf.2.1
  · intro row hrow
    exact hwf.2.2 row (List.mem_reverse.mp hrow)

theorem PGM_wf_reverse (p : PGM) (hwf : p.WellFormed) :
    PGM.WellFormed { p with data := p.data.reverse } := by
  refine ⟨hwf.1, ?_, ?_⟩
  · show ((p.data.reverse.length : Nat) : Int) = p.height
    rw [List.length_reverse]; exact hwf.2.1
  · intro row hrow
    exact hwf.2.2 row (List.mem_reverse.mp hrow)

theorem subUint8_twice (m v : Nat) (hv : v < 256) : subUint8 m (subUint8 m v) = v := by
  unfold subUint8
  omega

theorem subUint8_exact (m v : Nat) (hm : m < 256) (hv : v ≤ m) : subUint8 m v = m - v := by
  unfold subUint8
  omega

theorem map_map_self {α : Type} (f : α → α) (data : List (List α))
    (hf : ∀ row ∈ data, ∀ v ∈ row, f (f v) = v) :
    (data.map (List.map f)).map (List.map f) = data := by
  rw [List.map_map]
  conv_rhs => rw [← List.map_id data]
  apply List.map_congr_left
  intro row hrow
  show List.map f (List.map f row) = id row
  rw [List.map_map]
  conv_rhs => rw [id, ← List.map_id row]
  apply List.map_congr_left
  intro v hv
  exact hf row hrow v hv

theorem map_reverse_twice {α : Type} (data : List (List α)) :
    (data.map List.reverse).map List.reverse = data := by
  rw [List.map_map]
  conv_rhs => rw [← List.map_id data]
  apply List.map_congr_left
  intro row _
  simp


/-! ## Invert, Flip and Flop: involutions -/

/-- C11: `Invert` is an involution. For every well-formed bitmap and every
well-formed greymap whose samples and max are `uint8` values (below 256),
two calls of `Invert` in a row return the original buffer: same samples,
width, height, tag and max. The greymap subtraction is the 8-bit one, so this
holds also when a sample exceeds max. -/
theorem Invert_twice (b : PBM) (g : PGM) (hb : b.WellFormed) (hg : g.WellFormed)
    (hs : ∀ row ∈ g.data, ∀ v ∈ row, v < 256) :
    (b.Invert >>= PBM.Invert) = .ok b ∧ (g.Invert >>= PGM.Invert) = .ok g := by
  constructor
  · rw [PBM_Invert_eq b hb]
    show PBM.Invert _ = _
    rw [PBM_Invert_eq _ (PBM_wf_map b hb _ (fun row => List.length_map row _))]
    dsimp only
    rw [map_map_self _ _ (fun _ _ v _ => Bool.not_not v)]
  · rw [PGM_Invert_eq g hg]
    show PGM.Invert _ = _
    rw [PGM_Invert_eq _ (PGM_wf_map g hg _ (fun row => List.length_map row _))]
    dsimp only
    rw [map_map_self _ _ (fun row hrow v hv => subUint8_twice g.max v (hs row hrow v hv))]

theorem Invert_twice_witness :
    ((PBM.mk [[true, false, true], [false, true, false]] 3 2 "P1").WellFormed ∧
      (PGM.mk [[10, 200], [40, 50]] 2 2 "P2" 100).WellFormed ∧
      ∀ row ∈ (PGM.mk [[10, 200], [40, 50]] 2 2 "P2" 100).data, ∀ v ∈ row, v < 256) ∧
    (((PBM.mk [[true, false, true], [false, true, false]] 3 2 "P1").Invert >>= PBM.Invert) =
        .ok (PBM.mk [[true, false, true], [false, true, false]] 3 2 "P1") ∧
      ((PGM.mk [[10, 200], [40, 50]] 2 2 "P2" 100).Invert >>= PGM.Invert) =
        .ok (PGM.mk [[10, 200], [40, 50]] 2 2 "P2" 100)) :=
  ⟨by decide, Invert_twice _ _ (by decide) (by decide) (by decide)⟩

/-- C12: the mirrors are involutions. For every well-formed bitmap and every
well-formed greymap (any width and height, 0 and 1 included), two calls of
`Flip` in a row return the original buffer, and so do two calls of `Flop`. -/
theorem Flip_twice_Flop_twice (b : PBM) (g : PGM) (hb : b.WellFormed) (hg : g.WellFormed) :
    (b.Flip >>= PBM.Flip) = .ok b ∧ (b.Flop >>= PBM.Flop) = .ok b ∧
    (g.Flip >>= PGM.Flip) = .ok g ∧ (g.Flop >>= PGM.Flop) = .ok g := by
  refine ⟨?_, ?_, ?_, ?_⟩
  · rw [PBM_Flip_eq b hb]
    show PBM.Flip _ = _
    rw [PBM_Flip_eq _ (PBM_wf_map b hb _ (fun row => List.length_reverse row))]
    dsimp only
    rw [map_reverse_twice]
  · rw [PBM_Flop_eq b hb]
    show PBM.Flop _ = _
    rw [PBM_Flop_eq _ (PBM_wf_reverse b hb)]
    dsimp only
    rw [List.reverse_reverse]
  · rw [PGM_Flip_eq g hg]
    show PGM.Flip _ = _
    rw [PGM_Flip_eq _ (PGM_wf_map g hg _ (fun row => List.length_reverse row))]
    dsimp only
    rw [map_reverse_twice]
  · rw [PGM_Flop_eq g hg]
    show PGM.Flop _ = _
    rw [PGM_Flop_eq _ (PGM_wf_reverse g hg)]
    dsimp only
    rw [List.reverse_reverse]

theorem Flip_twice_Flop_twice_witness :
    ((PBM.mk [[true, false, true], [false, true, false], [true, true, false]] 3 3 "P1").WellFormed ∧
      (PGM.mk [[10, 20], [30, 40], [50, 60]] 2 3 "P2" 255).WellFormed) ∧
    (((PBM.mk [[true, false, true], [false, true, false], [true, true, false]] 3 3 "P1").Flip
          >>= PBM.Flip) =
        .ok (PBM.mk [[true, false, true], [false, true, false], [true, true, false]] 3 3 "P1") ∧
      ((PBM.mk [[true, false, true], [false, true, false], [true, true, false]] 3 3 "P1").Flop
          >>= PBM.Flop) =
        .ok (PBM.mk [[true, false, true], [false, true, false], [true, true, false]] 3 3 "P1") ∧
      ((PGM.mk [[10, 20], [30, 40], [50, 60]] 2 3 "P2" 255).Flip >>= PGM.Flip) =
        .ok (PGM.mk [[10, 20], [30, 40], [50, 60]] 2 3 "P2" 255) ∧
      ((PGM.mk [[10, 20], [30, 40], [50, 60]] 2 3 "P2" 255).Flop >>= PGM.Flop) =
        .ok (PGM.mk [[10, 20], [30, 40], [50, 60]] 2 3 "P2" 255)) :=
  ⟨by decide, Flip_twice_Flop_twice _ _ (by decide) (by decide)⟩


/-! ## Samples of the transformed grids -/

theorem rows_getD_length {α : Type} (data : List (List α)) (width : Int)
    (hrows : ∀ row ∈ data, (row.length : Int) = width) (y : Nat) (hy : y < data.length) :
    (data.getD y []).length = width.toNat := by
  have hmem : data.getD y [] ∈ data := by
    rw [List.getD_eq_getElem _ _ hy]; exact List.getElem_mem _
  have := hrows _ hmem
  omega

theorem getD_getD_mem {α : Type} (data : List (List α)) (d : α) (y x : Nat)
    (hy : y < data.length) (hx : x < (data.getD y []).length) :
    ∃ row ∈ data, (data.getD y []).getD x d ∈ row := by
  refine ⟨data.getD y [], ?_, ?_⟩
  · rw [List.getD_eq_getElem _ _ hy]; exact List.getElem_mem _
  · rw [List.getD_eq_getElem _ _ hx]; exact List.getElem_mem _

theorem getD_map_rows {α : Type} (f : List α → List α) (data : List (List α)) (y : Nat)
    (hy : y < data.length) : (data.map f).getD y [] = f (data.getD y []) := by
  rw [List.getD_eq_getElem _ _ (by simpa using hy), List.getD_eq_getElem _ _ hy]
  simp

theorem getD_map_cell {α : Type} (f : α → α) (row : List α) (d e : α) (x : Nat)
    (hx : x < row.length) : (row.map f).getD x e = f (row.getD x d) := by
  rw [List.getD_eq_getElem _ _ (by simpa using hx), List.getD_eq_getElem _ _ hx]
  simp

theorem getD_reverse {α : Type} (l : List α) (d : α) (x : Nat) (hx : x < l.length) :
    l.reverse.getD x d = l.getD (l.length - 1 - x) d := by
  rw [List.getD_eq_getElem _ _ (by simpa using hx),
    List.getD_eq_getElem _ _ (show l.length - 1 - x < l.length by omega)]
  simp

theorem PGM_At_in_bounds (p : PGM) (hwf : p.WellFormed) (x y : Nat)
    (hx : (x : Int) < p.width) (hy : (y : Int) < p.height) :
    p.At (x : Int) (y : Int) = .ok (cell p.data y x) := by
  have hlen := hwf.2.1
  have hy' : y < p.data.length := by omega
  apply At_natCast p x y hy'
  rw [rows_getD_length _ _ hwf.2.2 y hy']
  omega

theorem PBM_At_in_bounds (p : PBM) (hwf : p.WellFormed) (x y : Nat)
    (hx : (x : Int) < p.width) (hy : (y : Int) < p.height) :
    p.At (x : Int) (y : Int) = .ok ((p.data.getD y []).getD x false) := by
  have hlen := hwf.2.1
  have hy' : y < p.data.length := by omega
  apply PBM_At_natCast p x y false hy' _ hx hy
  rw [rows_getD_length _ _ hwf.2.2 y hy']
  omega


/-! ## Invert and Flip: samples -/

/-- C13: `Invert` computes the complement. For every well-formed greymap with
max below 256 whose samples are all at most max, `Invert` returns a buffer
with the same width, height, tag and max whose sample at every in-bounds
`(x, y)` is `max - old sample` as an exact subtraction (the old sample is at
most max, so nothing wraps, and the result is at most max). For every
well-formed bitmap, `Invert` returns a buffer with the same width, height and
tag whose sample at every in-bounds `(x, y)` is the negation of the old one. -/
theorem Invert_complement (b : PBM) (g : PGM) (hb : b.WellFormed) (hg : g.WellFormed)
    (hmax : g.max < 256) (hs : ∀ row ∈ g.data, ∀ v ∈ row, v ≤ g.max) :
    (∃ r, g.Invert = .ok r ∧ r.width = g.width ∧ r.height = g.height ∧
      r.magicNumber = g.magicNumber ∧ r.max = g.max ∧
      ∀ x y : Int, 0 ≤ x → x < g.width → 0 ≤ y → y < g.height →
        ∃ v, g.At x y = .ok v ∧ v ≤ g.max ∧ r.At x y = .ok (g.max - v) ∧
          g.max - v ≤ g.max) ∧
    (∃ r, b.Invert = .ok r ∧ r.width = b.width ∧ r.height = b.height ∧
      r.magicNumber = b.magicNumber ∧
      ∀ x y : Int, 0 ≤ x → x < b.width → 0 ≤ y → y < b.height →
        ∃ v, b.At x y = .ok v ∧ r.At x y = .ok (!v)) := by
  constructor
  · have wr := PGM_wf_map g hg (List.map fun v => subUint8 g.max v)
      (fun row => List.length_map row _)
    refine ⟨_, PGM_Invert_eq g hg, rfl, rfl, rfl, rfl, ?_⟩
    intro x y hx0 hx hy0 hy
    lift x to ℕ using hx0
    lift y to ℕ using hy0
    have hlen := hg.2.1
    have hy' : y < g.data.length := by omega
    have hx' : x < (g.data.getD y []).length := by
      rw [rows_getD_length _ _ hg.2.2 y hy']; omega
    obtain ⟨row, hrow, hv⟩ := getD_getD_mem g.data 0 y x hy' hx'
    have hle : cell g.data y x ≤ g.max := hs row hrow _ hv
    refine ⟨cell g.data y x, PGM_At_in_bounds g hg x y hx hy, hle, ?_, Nat.sub_le _ _⟩
    rw [PGM_At_in_bounds _ wr x y hx hy]
    show Except.ok (cell (g.data.map (List.map fun v => subUint8 g.max v)) y x) = _
    unfold cell
    rw [getD_map_rows _ _ y hy', getD_map_cell _ _ 0 0 x hx']
    show Except.ok (subUint8 g.max (cell g.data y x)) = _
    rw [subUint8_exact _ _ hmax hle]
    rfl
  · have wr := PBM_wf_map b hb (List.map fun v => !v) (fun row => List.length_map row _)
    refine ⟨_, PBM_Invert_eq b hb, rfl, rfl, rfl, ?_⟩
    intro x y hx0 hx hy0 hy
    lift x to ℕ using hx0
    lift y to ℕ using hy0
    have hlen := hb.2.1
    have hy' : y < b.data.length := by omega
    have hx' : x < (b.data.getD y []).length := by
      rw [rows_getD_length _ _ hb.2.2 y hy']; omega
    refine ⟨(b.data.getD y []).getD x false, PBM_At_in_bounds b hb x y hx hy, ?_⟩
    rw [PBM_At_in_bounds _ wr x y hx hy]
    show Except.ok (((b.data.map (List.map fun v => !v)).getD y []).getD x false) = _
    rw [getD_map_rows _ _ y hy', getD_map_cell _ _ false false x hx']

theorem Invert_complement_witness :
    ((PBM.mk [[true, false]] 2 1 "P1").WellFormed ∧ (PGM.mk [[50, 0, 255]] 3 1 "P2" 255).WellFormed ∧
      (PGM.mk [[50, 0, 255]] 3 1 "P2" 255).max < 256 ∧
      ∀ row ∈ (PGM.mk [[50, 0, 255]] 3 1 "P2" 255).data, ∀ v ∈ row,
        v ≤ (PGM.mk [[50, 0, 255]] 3 1 "P2" 255).max) ∧
    ((∃ r, (PGM.mk [[50, 0, 255]] 3 1 "P2" 255).Invert = .ok r ∧ r.width = 3 ∧ r.height = 1 ∧
      r.magicNumber = "P2" ∧ r.max = 255 ∧
      ∀ x y : Int, 0 ≤ x → x < 3 → 0 ≤ y → y < 1 →
        ∃ v, (PGM.mk [[50, 0, 255]] 3 1 "P2" 255).At x y = .ok v ∧ v ≤ 255 ∧
          r.At x y = .ok (255 - v) ∧ 255 - v ≤ 255) ∧
    (∃ r, (PBM.mk [[true, false]] 2 1 "P1").Invert = .ok r ∧ r.width = 2 ∧ r.height = 1 ∧
      r.magicNumber = "P1" ∧
      ∀ x y : Int, 0 ≤ x → x < 2 → 0 ≤ y → y < 1 →
        ∃ v, (PBM.mk [[true, false]] 2 1 "P1").At x y = .ok v ∧ r.At x y = .ok (!v))) ∧
    (PGM.mk [[50, 0, 255]] 3 1 "P2" 255).Invert = .ok (PGM.mk [[205, 255, 0]] 3 1 "P2" 255) :=
  ⟨by decide,
   Invert_complement (PBM.mk [[true, false]] 2 1 "P1") (PGM.mk [[50, 0, 255]] 3 1 "P2" 255)
     (by decide) (by decide) (by decide) (by decide),
   by decide⟩

/-- C14: `Flip` is the horizontal mirror. For every well-formed bitmap and
every well-formed greymap, `Flip` returns a buffer with the same width,
height, tag (and max) in which, for all `0 ≤ x < width` and `0 ≤ y < height`,
the sample at `(x, y)` is the old sample at `(width - 1 - x, y)`: every row
is reversed and the rows keep their order. -/
theorem Flip_mirror (b : PBM) (g : PGM) (hb : b.WellFormed) (hg : g.WellFormed) :
    (∃ r, b.Flip = .ok r ∧ r.width = b.width ∧ r.height = b.height ∧
      r.magicNumber = b.magicNumber ∧ r.data = b.data.map List.reverse ∧
      ∀ x y : Int, 0 ≤ x → x < b.width → 0 ≤ y → y < b.height →
        ∃ v, r.At x y = .ok v ∧ b.At (b.width - 1 - x) y = .ok v) ∧
    (∃ r, g.Flip = .ok r ∧ r.width = g.width ∧ r.height = g.height ∧
      r.magicNumber = g.magicNumber ∧ r.max = g.max ∧ r.data = g.data.map List.reverse ∧
      ∀ x y : Int, 0 ≤ x → x < g.width → 0 ≤ y → y < g.height →
        ∃ v, r.At x y = .ok v ∧ g.At (g.width - 1 - x) y = .ok v) := by
  constructor
  · have wr := PBM_wf_map b hb List.reverse (fun row => List.length_reverse row)
    refine ⟨_, PBM_Flip_eq b hb, rfl, rfl, rfl, rfl, ?_⟩
    intro x y hx0 hx hy0 hy
    lift x to ℕ using hx0
    lift y to ℕ using hy0
    have hlen := hb.2.1
    have hy' : y < b.data.length := by omega
    have hrl := rows_getD_length _ _ hb.2.2 y hy'
    have hx' : x < (b.data.getD y []).length := by omega
    have e : b.width - 1 - (x : Int) = ((b.width.toNat - 1 - x : Nat) : Int) := by omega
    refine ⟨(b.data.getD y []).getD (b.width.toNat - 1 - x) false, ?_, ?_⟩
    · rw [PBM_At_in_bounds _ wr x y hx hy]
      show Except.ok (((b.data.map List.reverse).getD y []).getD x false) = _
      rw [getD_map_rows _ _ y hy', getD_reverse _ _ x hx', hrl]
    · rw [e, PBM_At_in_bounds b hb _ y (by omega) hy]
  · have wr := PGM_wf_map g hg List.reverse (fun row => List.length_reverse row)
    refine ⟨_, PGM_Flip_eq g hg, rfl, rfl, rfl, rfl, rfl, ?_⟩
    intro x y hx0 hx hy0 hy
    lift x to ℕ using hx0
    lift y to ℕ using hy0
    have hlen := hg.2.1
    have hy' : y < g.data.length := by omega
    have hrl := rows_getD_length _ _ hg.2.2 y hy'
    have hx' : x < (g.data.getD y []).length := by omega
    have e : g.width - 1 - (x : Int) = ((g.width.toNat - 1 - x : Nat) : Int) := by omega
    refine ⟨cell g.data y (g.width.toNat - 1 - x), ?_, ?_⟩
    · rw [PGM_At_in_bounds _ wr x y hx hy]
      show Except.ok (cell (g.data.map List.reverse) y x) = _
      unfold cell
      rw [getD_map_rows _ _ y hy', getD_reverse _ _ x hx', hrl]
    · rw [e, PGM_At_in_bounds g hg _ y (by omega) hy]

theorem Flip_mirror_witness :
    ((PBM.mk [[true, false, false], [false, true, false]] 3 2 "P1").WellFormed ∧
      (PGM.mk [[10, 20, 30], [40, 50, 60]] 3 2 "P2" 255).WellFormed) ∧
    ((∃ r, (PBM.mk [[true, false, false], [false, true, false]] 3 2 "P1").Flip = .ok r ∧
      r.width = 3 ∧ r.height = 2 ∧ r.magicNumber = "P1" ∧
      r.data = [[true, false, false], [false, true, false]].map List.reverse ∧
      ∀ x y : Int, 0 ≤ x → x < 3 → 0 ≤ y → y < 2 →
        ∃ v, r.At x y = .ok v ∧
          (PBM.mk [[true, false, false], [false, true, false]] 3 2 "P1").At (3 - 1 - x) y =
            .ok v) ∧
    (∃ r, (PGM.mk [[10, 20, 30], [40, 50, 60]] 3 2 "P2" 255).Flip = .ok r ∧
      r.width = 3 ∧ r.height = 2 ∧ r.magicNumber = "P2" ∧ r.max = 255 ∧
      r.data = [[10, 20, 30], [40, 50, 60]].map List.reverse ∧
      ∀ x y : Int, 0 ≤ x → x < 3 → 0 ≤ y → y < 2 →
        ∃ v, r.At x y = .ok v ∧
          (PGM.mk [[10, 20, 30], [40, 50, 60]] 3 2 "P2" 255).At (3 - 1 - x) y = .ok v)) ∧
    (PGM.mk [[10, 20, 30], [40, 50, 60]] 3 2 "P2" 255).Flip =
      .ok (PGM.mk [[30, 20, 10], [60, 50, 40]] 3 2 "P2" 255) :=
  ⟨by decide,
   Flip_mirror (PBM.mk [[true, false, false], [false, true, false]] 3 2 "P1")
     (PGM.mk [[10, 20, 30], [40, 50, 60]] 3 2 "P2" 255) (by decide) (by decide),
   by decide⟩


/-! ## Half turn -/

theorem rotated_twice_data (g : PGM) (hg : g.WellFormed) :
    g.rotated.rotated.data = (g.data.map List.reverse).reverse := by
  have w1 := rotated_wf g hg
  have w2 := rotated_wf _ w1
  have hlen := hg.2.1
  have hH : g.data.length = g.height.toNat := by omega
  apply grid_ext _ _ g.height.toNat g.width.toNat
  · rw [rotated_length]; rfl
  · simp [hH]
  · intro y hy; exact row_length_of_wf _ w2 y hy
  · intro y hy
    rw [getD_reverse _ _ y (by simpa [hH] using hy),
      getD_map_rows _ _ _ (by simp; omega), List.length_reverse,
      rows_getD_length _ _ hg.2.2 _ (by simp; omega)]
  · intro y x hy hx
    rw [cell_rotated_twice g y x hy hx]
    unfold cell
    rw [getD_reverse _ _ y (by simpa [hH] using hy),
      getD_map_rows _ _ _ (by simp; omega),
      getD_reverse _ _ x (by rw [rows_getD_length _ _ hg.2.2 _ (by simp; omega)]; exact hx),
      rows_getD_length _ _ hg.2.2 _ (by simp; omega)]
    simp [hH]

/-- C20: a half turn equals both mirrors. For every well-formed greymap, two
calls of `ROTA`, `Flip` followed by `Flop`, and `Flop` followed by `Flip` all
return the same buffer: the original width, height, max and tag, with the
rows in reverse order and every row reversed. -/
theorem ROTA_twice_eq_Flip_Flop (g : PGM) (hg : g.WellFormed) :
    ∃ r, (g.ROTA >>= PGM.ROTA) = .ok r ∧ (g.Flip >>= PGM.Flop) = .ok r ∧
      (g.Flop >>= PGM.Flip) = .ok r ∧
      r = { g with data := (g.data.map List.reverse).reverse } := by
  refine ⟨{ g with data := (g.data.map List.reverse).reverse }, ?_, ?_, ?_, rfl⟩
  · rw [ROTA_eq g hg]
    show PGM.ROTA g.rotated = _
    rw [ROTA_eq _ (rotated_wf g hg)]
    have hd := rotated_twice_data g hg
    cases g
    simp only [PGM.rotated] at hd ⊢
    simp only [hd]
  · rw [PGM_Flip_eq g hg]
    show PGM.Flop _ = _
    rw [PGM_Flop_eq _ (PGM_wf_map g hg _ (fun row => List.length_reverse row))]
  · rw [PGM_Flop_eq g hg]
    show PGM.Flip _ = _
    rw [PGM_Flip_eq _ (PGM_wf_reverse g hg)]
    dsimp only
    rw [List.map_reverse]

theorem ROTA_twice_eq_Flip_Flop_witness :
    (PGM.mk [[10, 20, 30], [40, 50, 60]] 3 2 "P2" 255).WellFormed ∧
    ∃ r, ((PGM.mk [[10, 20, 30], [40, 50, 60]] 3 2 "P2" 255).ROTA >>= PGM.ROTA) = .ok r ∧
      ((PGM.mk [[10, 20, 30], [40, 50, 60]] 3 2 "P2" 255).Flip >>= PGM.Flop) = .ok r ∧
      ((PGM.mk [[10, 20, 30], [40, 50, 60]] 3 2 "P2" 255).Flop >>= PGM.Flip) = .ok r ∧
      r = { (PGM.mk [[10, 20, 30], [40, 50, 60]] 3 2 "P2" 255) with
            data := ([[10, 20, 30], [40, 50, 60]].map List.reverse).reverse } :=
  ⟨by decide, ROTA_twice_eq_Flip_Flop (PGM.mk [[10, 20, 30], [40, 50, 60]] 3 2 "P2" 255)
    (by decide)⟩


/-! ## What the decoders accept -/

theorem decodeRow_getD_any (w : Nat) (r : String) (x : Nat) (hx : x < w) :
    (decodeRow w r).getD x false = decide ((Atoi ((Fields r).getD x "")).1 = 1) := by
  unfold decodeRow
  rw [List.getD_eq_getElem _ _ (by simpa using hx), List.getElem_mapIdx,
    List.getElem_replicate]
  by_cases h : (Atoi ((Fields r).getD x "")).1 = 1
  · rw [if_pos h, decide_eq_true h]
  · rw [if_neg h, decide_eq_false h]

/-- C17 (fails on the code): `ReadPBM` drops the error of `strconv.Atoi`. On
a 1 x 3 bitmap whose sample line is `2 -1 x` it returns a buffer of three
unset samples and no error. -/
theorem ReadPBM_invalid_tokens_accepted :
    ReadPBM "P1\n1 3\n2 -1 x\n" =
      .ok (some (PBM.mk [[false, false, false]] 3 1 "P1"), none) := by
  decide

/-- C17 (amended): `ReadPBM` does not validate sample tokens. For every text
of which the scanner delivers the first `h + 2` lines, each of them being
shorter than 65536 bytes, whose first line is `P1`, whose dimension line is
`h w` (decimal, in the range of a Go `int`) and which goes on with `h` lines
of `w` whitespace-separated tokens of any content, `ReadPBM` returns a buffer
and no error, with
`Size() = (w, h)`, and for all `x < w`, `y < h` the sample `At(x, y)` is true
exactly when token `x` of sample line `y` reads as the integer 1 under
`strconv.Atoi`; every other token, valid integer or not, gives false. -/
theorem ReadPBM_tokens_not_validated (text : String) (h w : Nat) (rows : List String)
    (rest : List (Option String)) (hh63 : h < 2 ^ 63) (hw63 : w < 2 ^ 63)
    (hlines : scanLines text =
      some "P1" :: some (fmtNat h ++ " " ++ fmtNat w) :: (rows.map some ++ rest))
    (hrows : rows.length = h) (htok : ∀ r ∈ rows, (Fields r).length = w) :
    ∃ b, ReadPBM text = .ok (some b, none) ∧ b.Size = ((w : Int), (h : Int)) ∧
      ∀ x y : Nat, x < w → y < h →
        b.At (x : Int) (y : Int) =
          .ok (decide ((Atoi ((Fields (rows.getD y "")).getD x "")).1 = 1)) := by
  refine ⟨_, ReadPBM_eq text h w rows rest hh63 hw63 hlines hrows htok, rfl, ?_⟩
  intro x y hx hy
  have hy' : y < rows.length := by omega
  have hrow : (rows.map (decodeRow w)).getD y [] = decodeRow w (rows.getD y "") := by
    rw [List.getD_eq_getElem _ _ (by simpa using hy'), List.getD_eq_getElem _ _ hy']
    simp
  rw [PBM_At_natCast _ x y false (by simpa using hy')
    (by show x < ((rows.map (decodeRow w)).getD y []).length
        rw [hrow]; simpa [decodeRow] using hx)
    (by show (x : Int) < (w : Int); omega) (by show (y : Int) < (h : Int); omega)]
  show Except.ok (((rows.map (decodeRow w)).getD y []).getD x false) = _
  rw [hrow, decodeRow_getD_any w _ x hx]

theorem ReadPBM_tokens_not_validated_witness :
    ((1 : Nat) < 2 ^ 63 ∧ (3 : Nat) < 2 ^ 63 ∧
      scanLines "P1\n1 3\n2 -1 x\n" =
        some "P1" :: some (fmtNat 1 ++ " " ++ fmtNat 3) :: (["2 -1 x"].map some ++ []) ∧
      ["2 -1 x"].length = 1 ∧ ∀ r ∈ ["2 -1 x"], (Fields r).length = 3) ∧
    ∃ b, ReadPBM "P1\n1 3\n2 -1 x\n" = .ok (some b, none) ∧
      b.Size = (((3 : Nat) : Int), ((1 : Nat) : Int)) ∧
      ∀ x y : Nat, x < 3 → y < 1 →
        b.At (x : Int) (y : Int) =
          .ok (decide ((Atoi ((Fields (["2 -1 x"].getD y "")).getD x "")).1 = 1)) :=
  ⟨by decide,
   ReadPBM_tokens_not_validated "P1\n1 3\n2 -1 x\n" 1 3 ["2 -1 x"] []
     (by decide) (by decide) (by decide) (by decide) (by decide)⟩


/-- C15 (fails on the code): `ReadPBM` has no branch for `P4`. On a `P4` text
with one row of eight columns and the data byte `A` (bits 01000001), and on
one with two rows of three columns and two data bytes, it returns neither a
buffer nor an error. -/
theorem ReadPBM_P4_returns_nothing :
    ReadPBM "P4\n1 8\nA" = .ok (none, none) ∧ ReadPBM "P4\n2 3\nA@" = .ok (none, none) := by
  decide

/-- C16 (fails on the code): `Save` has no branch for `P4`. For every buffer
tagged `P4` the text written is the header alone, whatever the data; so for
the well-formed bitmap of width 8 and height 1, and for the bitmap that
`PBMConv` returns, no sample byte follows the header. -/
theorem Save_P4_writes_header_only :
    (∀ (data : List (List Bool)) (w h : Int),
      (PBM.mk data w h "P4").Save = ("P4" ++ "\n" ++ fmtInt w ++ " " ++ fmtInt h ++ "\n", none)) ∧
    (PBM.mk [[false, true, false, false, false, false, false, true]] 8 1 "P4").WellFormed ∧
    (PBM.mk [[false, true, false, false, false, false, false, true]] 8 1 "P4").Save =
      ("P4\n8 1\n", none) ∧
    (PGM.mk [[255, 0]] 2 1 "P2" 255).PBMConv =
      .ok (PBM.mk [[true, false]] 2 1 "P4", PGM.mk [[255, 0]] 2 1 "P2" 255) ∧
    (PBM.mk [[true, false]] 2 1 "P4").Save = ("P4\n2 1\n", none) :=
  ⟨fun _ _ _ => rfl, by decide, by decide, by decide, by decide⟩

theorem skipComments_append (comments : List String) (rest : List (Option String))
    (hc : ∀ c ∈ comments, HasPrefix c '#' = true) :
    skipComments (comments.map some ++ rest) = skipComments rest := by
  induction comments with
  | nil => rfl
  | cons c cs ih =>
    have h1 := hc c (by simp)
    unfold HasPrefix at h1
    rw [List.map_cons, List.cons_append, skipComments]
    cases hd : c.data with
    | nil => rw [hd] at h1; simp at h1
    | cons ch t =>
      rw [hd] at h1
      have : ch = '#' := by simpa using h1
      simp only [this, if_true]
      exact ih (fun c' hc' => hc c' (by simp [hc']))

/-- Comment lines after the tag line do not change what `ReadPBM` returns. -/
theorem ReadPBM_skips_comments (t1 t2 magic : String) (comments : List String)
    (rest : List (Option String)) (h1 : scanLines t1 = some magic :: rest)
    (h2 : scanLines t2 = some magic :: (comments.map some ++ rest))
    (hc : ∀ c ∈ comments, HasPrefix c '#' = true) :
    ReadPBM t2 = ReadPBM t1 := by
  unfold ReadPBM
  simp only [NewScanner, h1, h2, Scanner.Scan, Scanner.Text, skipComments_append comments rest hc]

/-- C19 (fails on the code): `GetPGM` tests the tag line for `#`, not the
lines after it, so a comment line is read as the dimension line. The text
`P2 / 1 1 / 7 / 7` decodes to the 1 x 1 greymap with sample 7 and max 7; with
the line `# c` after the tag the result is an empty 0 x 0 greymap with max 0,
and with the line `#` it is an index panic. `ReadPBM` skips the comment. -/
theorem GetPGM_comment_not_skipped :
    (∀ unread, GetPGM "P2\n1 1\n7\n7\n" unread =
      .ok (some (PGM.mk [[7]] 1 1 "P2" 7), none)) ∧
    (∀ unread, GetPGM "P2\n# c\n1 1\n7\n7\n" unread =
      .ok (some (PGM.mk [] 0 0 "P2" 0), none)) ∧
    (∀ unread, GetPGM "P2\n#\n1 1\n7\n7\n" unread = .error "index out of range") ∧
    ReadPBM "P1\n# c\n1 1\n1\n" = ReadPBM "P1\n1 1\n1\n" ∧
    ReadPBM "P1\n1 1\n1\n" = .ok (some (PBM.mk [[true]] 1 1 "P1"), none) :=
  ⟨fun _ => by rfl, fun _ => by rfl, fun _ => by rfl, by decide, by decide⟩

/-! ## The token limit of the scanner -/

theorem utf8Len_pos (c : Char) : 1 ≤ utf8Len c := by
  unfold utf8Len
  split
  · exact Nat.le_refl 1
  · split
    · decide
    · split <;> decide

/-- A line that is not shorter than the buffer makes `Scan` fail: the scanner
returns false once, then delivers the buffer's content, and that is all. -/
theorem scanLinesAux_too_long (rest : List Char) : ∀ (L cur : List Char) (size : Nat),
    size < maxScanTokenSize → (∀ x ∈ L, x ≠ '\n') → maxScanTokenSize ≤ size + L.length →
    ∃ c, scanLinesAux (L ++ rest) cur size = [none, some c] := by
  intro L
  induction L with
  | nil => intro cur size h1 _ h3; simp at h3; omega
  | cons x xs ih =>
    intro cur size h1 h2 h3
    have hx : x ≠ '\n' := h2 x (by simp)
    simp only [List.cons_append, scanLinesAux, hx, if_false]
    by_cases hfit : size + utf8Len x < maxScanTokenSize
    · rw [if_pos hfit]
      have := utf8Len_pos x
      exact ih _ _ hfit (fun y hy => h2 y (by simp [hy])) (by simp at h3; omega)
    · rw [if_neg hfit]
      exact ⟨_, rfl⟩

/-- A line shorter than the buffer is delivered, without its newline and
without one carriage return before it. -/
theorem scanLinesAux_line (rest : List Char) : ∀ (L cur : List Char) (size : Nat),
    (∀ x ∈ L, x ≠ '\n') → size + (L.map utf8Len).sum < maxScanTokenSize →
    scanLinesAux (L ++ '\n' :: rest) cur size =
      some (String.mk (dropCR (cur.reverse ++ L))) :: scanLinesAux rest [] 0 := by
  intro L
  induction L with
  | nil => intro cur size _ _; simp [scanLinesAux]
  | cons x xs ih =>
    intro cur size h2 h3
    have hx : x ≠ '\n' := h2 x (by simp)
    have hfit : size + utf8Len x < maxScanTokenSize := by
      simp at h3; omega
    have hsum : size + utf8Len x + (xs.map utf8Len).sum < maxScanTokenSize := by
      simp at h3; omega
    simp only [List.cons_append, scanLinesAux, hx, if_false, if_pos hfit]
    show scanLinesAux (xs ++ '\n' :: rest) (x :: cur) (size + utf8Len x) = _
    rw [ih _ _ (fun y hy => h2 y (by simp [hy])) hsum]
    simp

/-- What `scanLines` says about a text made of lines that each end in a
newline: when every line is shorter than the buffer of the scanner, every
`Scan` succeeds and delivers the next line. -/
theorem scanLines_lines (lines : List String)
    (h : ∀ l ∈ lines, (∀ x ∈ l.data, x ≠ '\n') ∧
      (l.data.map utf8Len).sum < maxScanTokenSize) :
    scanLines (String.join (lines.map fun l => l ++ "\n")) =
      lines.map fun l => some (String.mk (dropCR l.data)) := by
  unfold scanLines
  rw [String.data_join, List.map_map]
  induction lines with
  | nil => rfl
  | cons l ls ih =>
    have hl := h l (by simp)
    have e : (l ++ "\n").data = l.data ++ '\n' :: [] := by
      rw [String.data_append]
    simp only [List.map_cons, List.flatten_cons, Function.comp, e, List.append_assoc,
      List.cons_append, List.nil_append]
    rw [scanLinesAux_line _ _ _ _ hl.1 (by simpa using hl.2)]
    simp only [List.reverse_nil, List.nil_append]
    congr 1
    exact ih (fun l' hl' => h l' (by simp [hl']))

theorem length_flatten_replicate {α : Type} (n : Nat) (l : List α) :
    (List.replicate n l).flatten.length = n * l.length := by
  induction n with
  | zero => simp
  | succ n ih => simp [List.replicate_succ, ih, Nat.succ_mul, Nat.add_comm]

theorem fieldsAux_ones (n : Nat) :
    fieldsAux (List.replicate n ['1', ' ']).flatten [] = List.replicate n "1" := by
  induction n with
  | zero => rfl
  | succ n ih =>
    have h1 : isSpace '1' = false := by decide
    have h2 : isSpace ' ' = true := by decide
    simp [List.replicate_succ, fieldsAux, h1, h2, ih]

theorem ReadPBM_scan_fails (text : String) (rest : List (Option String))
    (hlines : scanLines text = some "P1" :: some "1 40000" :: none :: rest) :
    ReadPBM text = .error "index out of range" := by
  have ht : TrimSpace "P1" = "P1" := by decide
  have hc : ¬ (("P1" : String) ≠ "P1" ∧ ("P1" : String) ≠ "P4") := by decide
  unfold ReadPBM
  simp only [NewScanner, hlines, Scanner.Scan, Scanner.Text, ht, hc, if_false]
  rfl

/-- C3 (fails on the code): the scanner of `ReadPBM` has the default buffer of
65536 bytes. On the `P1` text with the dimension line `1 40000` and one sample
line of 40000 tokens `1`, each followed by a space (80000 bytes), the `Scan`
for the sample line fails, `Text()` is empty and `ReadPBM` stops with an index
panic on `hori[0]`. -/
theorem ReadPBM_long_line_panics :
    Fields (String.join (List.replicate 40000 "1 ")) = List.replicate 40000 "1" ∧
    ReadPBM ("P1\n1 40000\n" ++ String.join (List.replicate 40000 "1 ") ++ "\n") =
      .error "index out of range" := by
  have hd : (String.join (List.replicate 40000 "1 ")).data =
      (List.replicate 40000 ['1', ' ']).flatten := by
    rw [String.data_join, List.map_replicate]
  constructor
  · unfold Fields
    rw [hd, fieldsAux_ones]
  · obtain ⟨c, hc⟩ := scanLinesAux_too_long ['\n'] (List.replicate 40000 ['1', ' ']).flatten
      [] 0 (by decide) (by
        intro x hx
        obtain ⟨l, hl, hxl⟩ := List.mem_flatten.mp hx
        rw [List.eq_of_mem_replicate hl] at hxl
        simp at hxl
        rcases hxl with rfl | rfl <;> decide)
      (by rw [length_flatten_replicate]; decide)
    apply ReadPBM_scan_fails _ [some c]
    unfold scanLines
    have e : ("P1\n1 40000\n" ++ String.join (List.replicate 40000 "1 ") ++ "\n").data =
        "P1\n1 40000\n".data ++ ((List.replicate 40000 ['1', ' ']).flatten ++ ['\n']) := by
      have hn : "\n".data = ['\n'] := rfl
      rw [String.data_append, String.data_append, hd, List.append_assoc, hn]
    have hhead : ∀ rest : List Char, scanLinesAux ("P1\n1 40000\n".data ++ rest) [] 0 =
        some "P1" :: some "1 40000" :: scanLinesAux rest [] 0 := fun _ => rfl
    rw [e, hhead, hc]

end Netpbm
